import Mathlib

/-!
Verification development for the retrieval pipeline of the ScalableRAGsystem
repository: chunk extraction (`code_assistant/embeddings/chunker.py`),
embedding generation (`code_assistant/embeddings/embedder.py`) and vector
indexing/search (`code_assistant/embeddings/vector_store.py`).

Python values are embedded as follows: `int` as `Int`, `float` as `ℚ` where the
code only moves values around (distances, scores) and as `ℝ` where genuine
real arithmetic happens (L2 normalization), `str` as `String`, `list` as
`List`, `dict` as insertion-ordered association lists, `None`/exceptions as
`Option`/`Except`.  External collaborators (parser, embedding model service,
vector backend) are passed in as explicit parameters, following the contracts
the specification states for them.
-/

namespace RAG

/-- Python `str` of a nonnegative integer. -/
def natRepr (n : Nat) : String := String.mk (Nat.toDigits 10 n)

/-- Python `str` of an `int`. -/
def intRepr (n : Int) : String :=
  if n < 0 then "-" ++ natRepr (-n).toNat else natRepr n.toNat

/-- Clamp an index for a Python slice over a list of length `n`:
negative indices count from the end, then the result is clamped to `[0, n]`. -/
def pySliceIdx (n : Nat) (i : Int) : Nat :=
  if i < 0 then (max 0 ((n : Int) + i)).toNat else (min i (n : Int)).toNat

/-- Python slice `xs[a:b]`. -/
def pySlice {α : Type} (xs : List α) (a b : Int) : List α :=
  (xs.take (pySliceIdx xs.length b)).drop (pySliceIdx xs.length a)

/-- Python slice `xs[a:]`. -/
def pySliceFrom {α : Type} (xs : List α) (a : Int) : List α :=
  xs.drop (pySliceIdx xs.length a)

/-- Python `dict` assignment `d[k] = v` on an insertion-ordered association
list: an existing binding is overwritten in place, a new key is appended. -/
def assocSet {β : Type} (d : List (String × β)) (k : String) (v : β) :
    List (String × β) :=
  if d.any (fun p => p.1 = k) then
    d.map (fun p => if p.1 = k then (k, v) else p)
  else d ++ [(k, v)]

/-- Split a character list at every newline, keeping empty segments;
`acc` holds the characters of the current segment in reverse. -/
def splitLinesAux : List Char → List Char → List String
  | [], acc => [String.mk acc.reverse]
  | c :: rest, acc =>
    if c = Char.ofNat 10 then String.mk acc.reverse :: splitLinesAux rest []
    else splitLinesAux rest (c :: acc)

/-- Python `content.split` at newlines, as used throughout the chunker:
every newline separates, empty segments are kept, and the empty string
yields a single empty segment. -/
def pySplitLines (s : String) : List String := splitLinesAux s.data []

/-- Python string truncation `s[:n]` for `n ≥ 0`. -/
def pyStrTake (s : String) (n : Nat) : String := String.mk (s.data.take n)

/-- Number of newline characters in a string (`s.count` with a newline). -/
def countNewlines (s : String) : Nat :=
  (s.data.filter (fun c => c = Char.ofNat 10)).length

/-- A Python metadata value as it appears in `DocumentChunk.metadata`:
`None`, booleans, ints, floats (as rationals), strings, lists and dicts. -/
inductive Value : Type where
  | vnone : Value
  | vbool : Bool → Value
  | vint : Int → Value
  | vrat : ℚ → Value
  | vstr : String → Value
  | vlist : List Value → Value
  | vdict : List (String × Value) → Value

/-- Python truthiness of a metadata value. -/
def pyTruthy : Value → Bool
  | .vnone => false
  | .vbool b => b
  | .vint n => n != 0
  | .vrat q => q != 0
  | .vstr s => s != ""
  | .vlist xs => !xs.isEmpty
  | .vdict xs => !xs.isEmpty

mutual

/-- Python `repr` of a metadata value (used by `str` on lists and dicts).
String escaping and float formatting are abstracted: a string is rendered
between single quotes without escaping, a float as `num/den`. -/
def pyRepr : Value → String
  | .vnone => "None"
  | .vbool true => "True"
  | .vbool false => "False"
  | .vint n => intRepr n
  | .vrat q => intRepr q.num ++ "/" ++ natRepr q.den
  | .vstr s => "\x27" ++ s ++ "\x27"
  | .vlist xs => "[" ++ pyReprList xs ++ "]"
  | .vdict xs => "\x7b" ++ pyReprDict xs ++ "\x7d"

/-- Comma-separated `repr`s of the elements of a Python list. -/
def pyReprList : List Value → String
  | [] => ""
  | [x] => pyRepr x
  | x :: xs => pyRepr x ++ ", " ++ pyReprList xs

/-- Comma-separated `repr`s of the entries of a Python dict. -/
def pyReprDict : List (String × Value) → String
  | [] => ""
  | [(k, v)] => "\x27" ++ k ++ "\x27: " ++ pyRepr v
  | (k, v) :: xs => "\x27" ++ k ++ "\x27: " ++ pyRepr v ++ ", " ++ pyReprDict xs

end

/-- `ChromaVectorStore._sanitize_metadata_value`: `None` becomes the string
`"null"`; strings, ints, floats and booleans pass through; lists and dicts
become their `str` form (`"[]"` / `"\x7b\x7d"` when empty). -/
def sanitizeMetadataValue : Value → Value
  | .vnone => .vstr "null"
  | .vbool b => .vbool b
  | .vint n => .vint n
  | .vrat q => .vrat q
  | .vstr s => .vstr s
  | .vlist xs => if !xs.isEmpty then .vstr (pyRepr (.vlist xs)) else .vstr "[]"
  | .vdict xs =>
    if !xs.isEmpty then .vstr (pyRepr (.vdict xs)) else .vstr "\x7b\x7d"

/-- The sentinel strings `add_embeddings` refuses to store. -/
def sentinelStrings : List String := ["null", "[]", "\x7b\x7d", "empty"]

/-- Python `sanitized_value not in ["null", "[]", "\x7b\x7d", "empty"]`:
only a string can compare equal to one of the sentinels. -/
def isSentinel : Value → Bool
  | .vstr s => s == "null" || s == "[]" || s == "\x7b\x7d" || s == "empty"
  | _ => false

/-- A metadata value is a backend-storable scalar. -/
def isScalarValue : Value → Bool
  | .vbool _ => true
  | .vint _ => true
  | .vrat _ => true
  | .vstr _ => true
  | _ => false

/-- The per-pair decision of the chunk-metadata loop in
`ChromaVectorStore.add_embeddings` (lines 171-181): skip the keys
`parameters`/`methods`/`dependencies` when falsy, sanitize the value, and
store it only when the sanitized value is truthy and not a sentinel. -/
def processMetaPair (key : String) (value : Value) : Option (String × Value) :=
  if (key = "parameters" ∨ key = "methods" ∨ key = "dependencies") ∧
      ¬ pyTruthy value then
    none
  else
    let s := sanitizeMetadataValue value
    if pyTruthy s ∧ ¬ isSentinel s then some (key, s) else none

/-- The chunk-metadata loop of `add_embeddings`, folded over a base dict. -/
def addChunkMetadata (base : List (String × Value))
    (meta : List (String × Value)) : List (String × Value) :=
  meta.foldl
    (fun acc kv =>
      match processMetaPair kv.1 kv.2 with
      | some (k, v) => assocSet acc k v
      | none => acc)
    base

/-- `core.types.DocumentChunk`: a retrieval-sized unit of source text.
Line numbers are Python ints (1-based inclusive); `file_path` is the string
form of the path; optional enum fields are carried as strings. -/
structure DocumentChunk : Type where
  content : String
  chunk_type : String := "code"
  language : Option String := none
  file_path : String
  start_line : Int
  end_line : Int
  element_name : Option String := none
  element_type : Option String := none
  metadata : List (String × Value) := []

/-- `core.types.CodeElement`, restricted to the fields the chunker reads. -/
structure CodeElement : Type where
  name : String
  element_type : String
  start_line : Int
  end_line : Int
  content : String := ""
  docstring : Option String := none
  parameters : List Value := []
  return_type : Option String := none
  decorators : List String := []
  parent_element : Option String := none
  children : List String := []
  dependencies : List String := []
  complexity_score : Option ℚ := none

/-- `core.types.AnalysisResult`, restricted to the fields the chunker reads
(`file_info.language` is inlined as `fileLanguage`). -/
structure AnalysisResult : Type where
  success : Bool := true
  fileLanguage : Option String := none
  code_elements : List CodeElement := []

/-- `chunker.ChunkingStrategy`. -/
inductive ChunkingStrategy : Type where
  | function_based
  | class_based
  | semantic_blocks
  | sliding_window
  | hybrid

/-- `chunker.ChunkingConfig` (character budgets are nonnegative ints). -/
structure ChunkingConfig : Type where
  strategy : ChunkingStrategy := .hybrid
  max_chunk_size : Nat := 1000
  min_chunk_size : Nat := 100
  overlap_size : Nat := 100
  include_context : Bool := true
  preserve_functions : Bool := true
  preserve_classes : Bool := true
  include_imports : Bool := true
  include_docstrings : Bool := true
  merge_small_functions : Bool := true

/-- `CodeChunker._extract_element_content`: lines from
`max(0, start_line - 1)` to `min(len(lines), end_line)`, joined. -/
def extractElementContent (element : CodeElement) (lines : List String) :
    String :=
  let startIdx := max 0 (element.start_line - 1)
  let endIdx := min (lines.length : Int) element.end_line
  String.intercalate "\n" (pySlice lines startIdx endIdx)

/-- `CodeChunker._add_context`: three lines of context around the element,
preceded by the lines of every import whose declared dependencies intersect
the element's. -/
def addContext (element : CodeElement) (lines : List String)
    (result : AnalysisResult) (includeImports : Bool) : String :=
  let startIdx := max 0 (element.start_line - 1 - 3)
  let endIdx := min (lines.length : Int) (element.end_line + 3)
  let body := String.intercalate "\n" (pySlice lines startIdx endIdx)
  if includeImports then
    let imports :=
      result.code_elements.filter (fun e => e.element_type = "import")
    let importLines := imports.foldl
      (fun acc imp =>
        if imp.dependencies.any (fun dep => element.dependencies.contains dep)
        then acc ++ pySlice lines (imp.start_line - 1) imp.end_line
        else acc)
      []
    if !importLines.isEmpty then
      String.intercalate "\n" importLines ++ "\n\n" ++ body
    else body
  else body

/-- The metadata dict built for a function chunk in `_chunk_by_functions`. -/
def functionChunkMetadata (f : CodeElement) : List (String × Value) :=
  [("function_name", .vstr f.name),
   ("complexity_score", f.complexity_score.elim Value.vnone Value.vrat),
   ("parameters", .vlist f.parameters),
   ("return_type", f.return_type.elim Value.vnone Value.vstr),
   ("docstring", f.docstring.elim Value.vnone Value.vstr),
   ("decorators", .vlist (f.decorators.map Value.vstr)),
   ("parent_class", f.parent_element.elim Value.vnone Value.vstr)]

/-- The main chunk `_chunk_by_functions` builds for one function element. -/
def mkFunctionChunk (cfg : ChunkingConfig) (result : AnalysisResult)
    (lines : List String) (path : String) (f : CodeElement) :
    DocumentChunk :=
  { content :=
      if cfg.include_context then addContext f lines result cfg.include_imports
      else extractElementContent f lines
    chunk_type := "code"
    language := result.fileLanguage
    file_path := path
    start_line := f.start_line
    end_line := f.end_line
    element_name := some f.name
    element_type := some f.element_type
    metadata := functionChunkMetadata f }

/-- The separate docstring chunk `_chunk_by_functions` emits when the
element has a (truthy) docstring and docstring chunks are enabled. -/
def mkFunctionDocChunks (cfg : ChunkingConfig) (result : AnalysisResult)
    (path : String) (f : CodeElement) : List DocumentChunk :=
  match f.docstring with
  | some doc =>
    if cfg.include_docstrings ∧ doc ≠ "" then
      [{ content := doc
         chunk_type := "docstring"
         language := result.fileLanguage
         file_path := path
         start_line := f.start_line
         end_line := f.start_line + (countNewlines doc : Int)
         element_name := some f.name
         element_type := some f.element_type
         metadata := [("function_name", .vstr f.name),
                      ("docstring_type", .vstr "function_docstring")] }]
    else []
  | none => []

/-- `CodeChunker._chunk_by_functions`: one chunk per function/method element,
plus a separate docstring chunk when enabled. -/
def chunkByFunctions (cfg : ChunkingConfig) (result : AnalysisResult)
    (content : String) (path : String) : List DocumentChunk :=
  let lines := pySplitLines content
  let functions := result.code_elements.filter
    (fun e => e.element_type = "function" ∨ e.element_type = "method")
  functions.foldl
    (fun chunks f =>
      chunks ++ [mkFunctionChunk cfg result lines path f] ++
        mkFunctionDocChunks cfg result path f)
    []

/-- The main chunk `_chunk_by_classes` builds for one class element. -/
def mkClassChunk (result : AnalysisResult) (lines : List String)
    (path : String) (cls : CodeElement) : DocumentChunk :=
  { content := extractElementContent cls lines
    chunk_type := "code"
    language := result.fileLanguage
    file_path := path
    start_line := cls.start_line
    end_line := cls.end_line
    element_name := some cls.name
    element_type := some cls.element_type
    metadata :=
      [("class_name", .vstr cls.name),
       ("inheritance", .vlist (cls.dependencies.map Value.vstr)),
       ("methods", .vlist (cls.children.map Value.vstr)),
       ("decorators", .vlist (cls.decorators.map Value.vstr)),
       ("complexity_score",
        cls.complexity_score.elim Value.vnone Value.vrat)] }

/-- The separate docstring chunk `_chunk_by_classes` emits when the class
has a (truthy) docstring and docstring chunks are enabled. -/
def mkClassDocChunks (cfg : ChunkingConfig) (result : AnalysisResult)
    (path : String) (cls : CodeElement) : List DocumentChunk :=
  match cls.docstring with
  | some doc =>
    if cfg.include_docstrings ∧ doc ≠ "" then
      [{ content := doc
         chunk_type := "docstring"
         language := result.fileLanguage
         file_path := path
         start_line := cls.start_line
         end_line := cls.start_line + (countNewlines doc : Int)
         element_name := some cls.name
         element_type := some cls.element_type
         metadata := [("class_name", .vstr cls.name),
                      ("docstring_type", .vstr "class_docstring")] }]
    else []
  | none => []

/-- `CodeChunker._chunk_by_classes`: one chunk per class element, plus a
separate docstring chunk when enabled. -/
def chunkByClasses (cfg : ChunkingConfig) (result : AnalysisResult)
    (content : String) (path : String) : List DocumentChunk :=
  let lines := pySplitLines content
  let classes :=
    result.code_elements.filter (fun e => e.element_type = "class")
  classes.foldl
    (fun chunks cls =>
      chunks ++ [mkClassChunk result lines path cls] ++
        mkClassDocChunks cfg result path cls)
    []

/-- `CodeChunker._are_semantically_related`: same parent, 3-character name
prefix overlap in either direction, line proximity within 10, or a named
dependency edge. -/
def areSemanticallyRelated (e1 e2 : CodeElement) : Bool :=
  (e1.parent_element.isSome ∧ e1.parent_element = e2.parent_element) ∨
  (String.take e2.name 3).isPrefixOf e1.name ∨
  (String.take e1.name 3).isPrefixOf e2.name ∨
  (e1.start_line - e2.end_line).natAbs ≤ 10 ∨
  e1.dependencies.contains e2.name ∨ e2.dependencies.contains e1.name

/-- Inner loop of `_group_semantic_elements`: collect the not-yet-used
elements related to `element`, marking their names used (first component:
the collected group members, second: the updated used-name set). -/
def collectRelated (element : CodeElement) :
    List CodeElement → List String → List CodeElement × List String
  | [], used => ([], used)
  | o :: rest, used =>
    if used.contains o.name then collectRelated element rest used
    else if areSemanticallyRelated element o then
      (o :: (collectRelated element rest (used ++ [o.name])).1,
       (collectRelated element rest (used ++ [o.name])).2)
    else collectRelated element rest used

/-- Outer loop of `_group_semantic_elements` over the remaining elements,
keeping a group only when it has more than one member or is rooted at a
class or function. -/
def groupGo (all : List CodeElement) :
    List CodeElement → List String → List (List CodeElement)
  | [], _ => []
  | e :: rest, used =>
    if used.contains e.name then groupGo all rest used
    else
      (if (e :: (collectRelated e all (used ++ [e.name])).1).length > 1 ∨
          e.element_type = "class" ∨ e.element_type = "function"
       then [e :: (collectRelated e all (used ++ [e.name])).1] else []) ++
        groupGo all rest (collectRelated e all (used ++ [e.name])).2

/-- `CodeChunker._group_semantic_elements`. -/
def groupSemanticElements (elements : List CodeElement) :
    List (List CodeElement) :=
  groupGo elements elements []

/-- The chunk `_chunk_semantic_blocks` builds for one nonempty semantic
group (an empty group is skipped by the `if not group` guard). -/
def mkSemanticChunks (result : AnalysisResult) (lines : List String)
    (path : String) (group : List CodeElement) : List DocumentChunk :=
  match group with
  | [] => []
  | g0 :: gs =>
    let startLine := gs.foldl (fun m e => min m e.start_line) g0.start_line
    let endLine := gs.foldl (fun m e => max m e.end_line) g0.end_line
    [{ content :=
         String.intercalate "\n" (pySlice lines (startLine - 1) endLine)
       chunk_type := "code"
       language := result.fileLanguage
       file_path := path
       start_line := startLine
       end_line := endLine
       element_name := some ("semantic_block_" ++ intRepr startLine ++
         "_" ++ intRepr endLine)
       element_type := none
       metadata :=
         [("semantic_group", .vbool true),
          ("elements", .vlist ((g0 :: gs).map (fun e =>
             .vdict [("name", .vstr e.name),
                     ("type", .vstr e.element_type)]))),
          ("group_size", .vint ((g0 :: gs).length : Int))] }]

/-- `CodeChunker._chunk_semantic_blocks`: one chunk per nonempty semantic
group, spanning the union of the members' line ranges. -/
def chunkSemanticBlocks (result : AnalysisResult) (content : String)
    (path : String) : List DocumentChunk :=
  let lines := pySplitLines content
  (groupSemanticElements result.code_elements).foldl
    (fun chunks group => chunks ++ mkSemanticChunks result lines path group)
    []

/-- State of the sliding-window loop in `_sliding_window_chunking`. -/
structure SWState : Type where
  curr : List String
  size : Nat
  startLine : Int
  out : List DocumentChunk

/-- A chunk emitted by the sliding-window loop. -/
def mkSWChunk (path : String) (s e : Int) (curr : List String) :
    DocumentChunk :=
  { content := String.intercalate "\n" curr
    chunk_type := "code"
    language := none
    file_path := path
    start_line := s
    end_line := e
    element_name := some ("chunk_" ++ intRepr s ++ "_" ++ intRepr e)
    element_type := none
    metadata := [("chunking_method", .vstr "sliding_window")] }

/-- One iteration of the sliding-window loop, at 1-based line index `i`. -/
def swStep (cfg : ChunkingConfig) (path : String) (st : SWState) (i : Nat)
    (line : String) : SWState :=
  let curr := st.curr ++ [line]
  let size := st.size + line.length + 1
  if cfg.max_chunk_size ≤ size then
    let overlapLines := max 1 (cfg.overlap_size / 50)
    let curr2 := pySliceFrom curr (-(overlapLines : Int))
    { curr := curr2
      size := curr2.foldl (fun acc l => acc + l.length + 1) 0
      startLine := (i : Int) - (overlapLines : Int) + 1
      out := st.out ++ [mkSWChunk path st.startLine (i : Int) curr] }
  else { st with curr := curr, size := size }

/-- The `for i, line in enumerate(lines, 1)` loop of
`_sliding_window_chunking`. -/
def swGo (cfg : ChunkingConfig) (path : String) :
    List String → Nat → SWState → SWState
  | [], _, st => st
  | l :: rest, i, st => swGo cfg path rest (i + 1) (swStep cfg path st i l)

/-- `CodeChunker._sliding_window_chunking`. -/
def slidingWindowChunking (cfg : ChunkingConfig) (content : String)
    (path : String) : List DocumentChunk :=
  let lines := pySplitLines content
  let fin := swGo cfg path lines 1 ⟨[], 0, 1, []⟩
  fin.out ++
    (if !fin.curr.isEmpty then
      [mkSWChunk path fin.startLine (lines.length : Int) fin.curr]
     else [])

/-- The whole-class chunk `_hybrid_chunking` builds for a complex class. -/
def mkComplexClassChunk (result : AnalysisResult) (lines : List String)
    (path : String) (cls : CodeElement) : DocumentChunk :=
  { content := extractElementContent cls lines
    chunk_type := "code"
    language := result.fileLanguage
    file_path := path
    start_line := cls.start_line
    end_line := cls.end_line
    element_name := some cls.name
    element_type := some cls.element_type
    metadata :=
      [("class_name", .vstr cls.name),
       ("chunking_reason", .vstr "complex_class"),
       ("complexity_score",
        cls.complexity_score.elim Value.vnone Value.vrat)] }

/-- The import lines `_hybrid_chunking` aggregates: the concatenation of
each import element's line range. -/
def importLinesOf (imports : List CodeElement) (lines : List String) :
    List String :=
  imports.foldl
    (fun acc imp => acc ++ pySlice lines (imp.start_line - 1) imp.end_line)
    []

/-- The aggregate import chunk of `_hybrid_chunking` (emitted only when
there are import elements contributing at least one line). -/
def mkImportChunks (result : AnalysisResult) (lines : List String)
    (path : String) : List DocumentChunk :=
  let imports :=
    result.code_elements.filter (fun e => e.element_type = "import")
  if !imports.isEmpty then
    let importLines := importLinesOf imports lines
    if !importLines.isEmpty then
      [{ content := String.intercalate "\n" importLines
         chunk_type := "code"
         language := result.fileLanguage
         file_path := path
         start_line := 1
         end_line := (importLines.length : Int)
         element_name := some "imports"
         element_type := some "import"
         metadata :=
           [("chunk_type", .vstr "imports"),
            ("import_count", .vint (imports.length : Int))] }]
    else []
  else []

/-- `CodeChunker._hybrid_chunking`: function chunks, whole-class chunks for
complex classes (complexity above 10), and one aggregate import chunk. -/
def hybridChunking (cfg : ChunkingConfig) (result : AnalysisResult)
    (content : String) (path : String) : List DocumentChunk :=
  let lines := pySplitLines content
  let functionChunks :=
    if cfg.preserve_functions then chunkByFunctions cfg result content path
    else []
  let classChunks :=
    if cfg.preserve_classes then
      (result.code_elements.filter (fun e =>
        e.element_type == "class" &&
        match e.complexity_score with
        | some q => q != 0 && decide (q > 10)
        | none => false)).map (mkComplexClassChunk result lines path)
    else []
  let importChunks :=
    if cfg.include_imports then mkImportChunks result lines path else []
  functionChunks ++ classChunks ++ importChunks

/-- Total number of lines of a file's content, as Python's
`len(content.split(chr(10)))`. -/
def totalLines (content : String) : Int := ((pySplitLines content).length : Int)

/-- Newline count of an element's docstring (`0` when there is none). -/
def docNewlines (e : CodeElement) : Int :=
  match e.docstring with
  | none => 0
  | some d => (countNewlines d : Int)

/-- A parser element lies within a file of `total` lines: 1-based range
inside the file, and its docstring's newline count fits inside its span. -/
def elemInBounds (total : Int) (e : CodeElement) : Prop :=
  1 ≤ e.start_line ∧ e.start_line ≤ e.end_line ∧ e.end_line ≤ total ∧
  docNewlines e ≤ e.end_line - e.start_line

/-- A chunk's line range is 1-based and inside a file of `total` lines. -/
def chunkInBounds (total : Int) (c : DocumentChunk) : Prop :=
  1 ≤ c.start_line ∧ c.start_line ≤ c.end_line ∧ c.end_line ≤ total

instance (total : Int) (e : CodeElement) : Decidable (elemInBounds total e) := by
  unfold elemInBounds
  infer_instance

instance (total : Int) (c : DocumentChunk) :
    Decidable (chunkInBounds total c) := by
  unfold chunkInBounds
  infer_instance

/-- Total line span claimed by the import elements of an analysis result. -/
def importSpanSum (result : AnalysisResult) : Int :=
  ((result.code_elements.filter (fun e => e.element_type = "import")).map
    (fun e => e.end_line - e.start_line + 1)).sum

/-- `CodeChunker._trim_chunk`: cut an oversized chunk down to the first
`max_chunk_size / 50` lines, adjusting `end_line` and recording the trim. -/
def trimChunk (cfg : ChunkingConfig) (chunk : DocumentChunk) : DocumentChunk :=
  let lines := pySplitLines chunk.content
  let targetLines := cfg.max_chunk_size / 50
  if targetLines < lines.length then
    let trimmedLines := lines.take targetLines
    { chunk with
      content := String.intercalate "\n" trimmedLines
      end_line := chunk.start_line + (trimmedLines.length : Int) - 1
      metadata :=
        assocSet (assocSet chunk.metadata "trimmed" (.vbool true))
          "original_lines" (.vint (lines.length : Int)) }
  else chunk

/-- `CodeChunker._create_merged_chunk` (the source raises on an empty list;
the empty case here returns a placeholder and is never reached). -/
def createMergedChunk : List DocumentChunk → DocumentChunk
  | [] =>
    { content := "", file_path := "", start_line := 0, end_line := 0 }
  | c :: cs =>
    let startLine := cs.foldl (fun m k => min m k.start_line) c.start_line
    let endLine := cs.foldl (fun m k => max m k.end_line) c.end_line
    { content := String.intercalate "\n\n" ((c :: cs).map (fun k => k.content))
      chunk_type := "code"
      language := c.language
      file_path := c.file_path
      start_line := startLine
      end_line := endLine
      element_name := some ("merged_" ++ intRepr startLine ++ "_" ++
        intRepr endLine)
      element_type := none
      metadata :=
        [("merged_chunk", .vbool true),
         ("original_chunks", .vint ((c :: cs).length : Int)),
         ("element_names",
          .vlist (((c :: cs).filterMap (fun k => k.element_name)).map
            Value.vstr)),
         ("element_types",
          .vlist ((((c :: cs).filterMap (fun k => k.element_type)).dedup).map
            Value.vstr))] }

/-- Flush the accumulated small-chunk group in `_merge_small_chunks`. -/
def flushGroup : List DocumentChunk → List DocumentChunk
  | [] => []
  | [c] => [c]
  | cs => [createMergedChunk cs]

/-- The loop of `_merge_small_chunks`: chunks below twice `min_chunk_size`
accumulate; a large chunk flushes the group and stands alone. -/
def mergeGo (cfg : ChunkingConfig) :
    List DocumentChunk → List DocumentChunk → List DocumentChunk
  | [], group => flushGroup group
  | c :: rest, group =>
    if c.content.length < cfg.min_chunk_size * 2 then
      mergeGo cfg rest (group ++ [c])
    else flushGroup group ++ [c] ++ mergeGo cfg rest []

/-- `CodeChunker._merge_small_chunks`. -/
def mergeSmallChunks (cfg : ChunkingConfig) (chunks : List DocumentChunk) :
    List DocumentChunk :=
  mergeGo cfg chunks []

/-- `CodeChunker._post_process_chunks`: drop sub-minimum chunks that are not
class or function chunks, trim oversized chunks, then merge small chunks
when enabled.  (The `result`/`content` arguments of the source method are
unused.) -/
def postProcessChunks (cfg : ChunkingConfig) (chunks : List DocumentChunk) :
    List DocumentChunk :=
  let processed := chunks.foldl
    (fun acc chunk =>
      if chunk.content.length < cfg.min_chunk_size ∧
          chunk.element_type ≠ some "class" ∧
          chunk.element_type ≠ some "function" then
        acc
      else if cfg.max_chunk_size < chunk.content.length then
        acc ++ [trimChunk cfg chunk]
      else acc ++ [chunk])
    []
  if cfg.merge_small_functions then mergeSmallChunks cfg processed
  else processed

/-- The outcomes of the external collaborators `chunk_file` interacts with
for one file: whether a parser exists, whether parsing succeeded and with
what result, what `read_file_content` returns (`none` = raises), and what
the raw `open().read()` in `_fallback_chunking` returns (`none` = raises). -/
structure FileEnv : Type where
  parserAvailable : Bool
  parseOk : Bool
  analysis : AnalysisResult
  parsedContent : Option String
  rawContent : Option String

/-- Dispatch on the configured chunking strategy. -/
def strategyChunks (cfg : ChunkingConfig) (result : AnalysisResult)
    (content : String) (path : String) : List DocumentChunk :=
  match cfg.strategy with
  | .function_based => chunkByFunctions cfg result content path
  | .class_based => chunkByClasses cfg result content path
  | .semantic_blocks => chunkSemanticBlocks result content path
  | .sliding_window => slidingWindowChunking cfg content path
  | .hybrid => hybridChunking cfg result content path

/-- `CodeChunker._fallback_chunking`: sliding-window chunking on the raw
file text, or the empty list when the file cannot be read. -/
def fallbackChunking (cfg : ChunkingConfig) (env : FileEnv) (path : String) :
    List DocumentChunk :=
  match env.rawContent with
  | none => []
  | some content => slidingWindowChunking cfg content path

/-- `CodeChunker.chunk_file`: parse, chunk by strategy and post-process;
fall back to sliding-window chunking when no parser is available, parsing
fails, or reading the parsed file's content raises. -/
def chunkFile (cfg : ChunkingConfig) (env : FileEnv) (path : String) :
    List DocumentChunk :=
  if !env.parserAvailable then fallbackChunking cfg env path
  else if !env.parseOk then fallbackChunking cfg env path
  else
    match env.parsedContent with
    | none => fallbackChunking cfg env path
    | some content =>
      postProcessChunks cfg (strategyChunks cfg env.analysis content path)

/-- `core.types.EmbeddingResult`: a chunk paired with its vector. -/
structure EmbeddingResult : Type where
  chunk : DocumentChunk
  embedding : List ℝ
  model_name : String
  embedding_dimension : Int

/-- `VectorStoreConfig`, restricted to the field `search` reads. -/
structure VectorStoreConfig : Type where
  max_results : Nat := 50

/-- `core.types.SearchQuery` (the `language` enum is carried as a string;
the unused `file_patterns`/`include_metadata` fields are omitted). -/
structure SearchQuery : Type where
  query : String
  language : Option String := none
  element_types : List String := []
  max_results : Nat := 10
  similarity_threshold : ℚ := 7 / 10

/-- `ChromaVectorStore._get_language_value`: `None` maps to `"unknown"`,
a string (or the value of a language enum) passes through. -/
def getLanguageValue : Option String → String
  | none => "unknown"
  | some s => s

/-- `uuid.uuid5(uuid.NAMESPACE_DNS, id_string)`.  Modelled from the spec:
the digest is a deterministic function of its input string, which is all the
identity and idempotence properties depend on, so it is modelled as the
identity on the joined key. -/
def uuid5DNS (s : String) : String := s

/-- `ChromaVectorStore._generate_chunk_id`: a deterministic id from file
path, line range, element name and element type (Python `or` replaces a
missing or empty name/type with `"unnamed"`/`"unknown"`). -/
def generateChunkId (chunk : DocumentChunk) : String :=
  let nm := match chunk.element_name with
    | some s => if s = "" then "unnamed" else s
    | none => "unnamed"
  let ty := match chunk.element_type with
    | some s => if s = "" then "unknown" else s
    | none => "unknown"
  uuid5DNS (String.intercalate "|"
    [chunk.file_path, intRepr chunk.start_line, intRepr chunk.end_line,
     nm, ty])

/-- The base metadata dict `add_embeddings` builds for a chunk, before the
chunk-specific metadata is folded in. -/
def prepareBaseMetadata (chunk : DocumentChunk) (modelName : String)
    (dimension : Int) : List (String × Value) :=
  [("file_path", .vstr chunk.file_path),
   ("start_line", .vint chunk.start_line),
   ("end_line", .vint chunk.end_line),
   ("element_name", .vstr (chunk.element_name.getD "")),
   ("element_type", .vstr (chunk.element_type.getD "")),
   ("chunk_type", .vstr (if chunk.chunk_type = "" then "code"
                         else chunk.chunk_type)),
   ("language", .vstr (getLanguageValue chunk.language)),
   ("model_name", .vstr modelName),
   ("embedding_dimension", .vint dimension)]

/-- One persisted record of the backend collection. -/
structure StoredRecord : Type where
  embedding : List ℝ
  metadata : List (String × Value)
  document : String

/-- The record `add_embeddings` prepares for one embedding result: full
metadata and the document text truncated to 1000 characters. -/
def storedRecordOf (r : EmbeddingResult) : StoredRecord :=
  { embedding := r.embedding
    metadata := addChunkMetadata
      (prepareBaseMetadata r.chunk r.model_name r.embedding_dimension)
      r.chunk.metadata
    document := pyStrTake r.chunk.content 1000 }

/-- The backend collection, as an insertion-ordered list of id/record pairs.
Modelled from the spec: `collection.add` on the external vector backend is
upsert-by-id (section 6) — an existing id is overwritten in place, a new id
is appended. -/
def collUpsert (coll : List (String × StoredRecord)) (id : String)
    (r : StoredRecord) : List (String × StoredRecord) :=
  assocSet coll id r

/-- `ChromaVectorStore.add_embeddings`: upsert one record per embedding
result, under its generated chunk id (an empty input leaves the collection
unchanged and reports success). -/
def addEmbeddings (coll : List (String × StoredRecord))
    (results : List EmbeddingResult) : List (String × StoredRecord) :=
  results.foldl
    (fun c r => collUpsert c (generateChunkId r.chunk) (storedRecordOf r))
    coll

/-- The single metadata predicate `search` may send to the backend. -/
inductive WhereClause : Type where
  | elementType : String → WhereClause
  | language : String → WhereClause

/-- The where-clause selection of `ChromaVectorStore.search` (lines
213-221): a single-element `element_types` filter wins; otherwise a truthy
`language` is used; otherwise no predicate. -/
def buildWhere (q : SearchQuery) : Option WhereClause :=
  match q.element_types with
  | [t] => some (WhereClause.elementType t)
  | _ =>
    match q.language with
    | some l =>
      if l ≠ "" then some (WhereClause.language (getLanguageValue (some l)))
      else none
    | none => none

/-- One row of the backend's query response. -/
structure BackendEntry : Type where
  id : String
  metadata : List (String × Value)
  document : String
  distance : ℚ

/-- `1.0 - distance if distance else 1.0` — equal to `1 - d` in both
branches. -/
def similarityOf (d : ℚ) : ℚ := if d ≠ 0 then 1 - d else 1

/-- Dict lookup used when reconstructing a chunk from stored metadata. -/
def dictGet (d : List (String × Value)) (k : String) : Option Value :=
  (d.find? (fun p => p.1 = k)).map (fun p => p.2)

/-- Project a stored metadata value to a string (stored values of these
keys are strings; a missing or non-string value yields the default). -/
def metaStr (d : List (String × Value)) (k : String) (dflt : String) :
    String :=
  match dictGet d k with
  | some (.vstr s) => s
  | _ => dflt

/-- Project a stored metadata value to an int. -/
def metaInt (d : List (String × Value)) (k : String) : Int :=
  match dictGet d k with
  | some (.vint n) => n
  | _ => 0

/-- A search result: the chunk reconstructed from the stored document and
metadata, the similarity score, the raw distance and the 1-based rank. -/
structure SearchResultM : Type where
  chunk : DocumentChunk
  similarity_score : ℚ
  distance : ℚ
  rank : Nat

/-- The result-construction loop of `search` (lines 251-280): enumerate the
backend rows, convert distance to similarity, rebuild the chunk, and rank
by position. -/
def searchResultsOf (entries : List BackendEntry) : List SearchResultM :=
  entries.enum.map (fun p =>
    let i := p.1
    let e := p.2
    { chunk :=
        { content := e.document
          chunk_type := metaStr e.metadata "chunk_type" "code"
          language := some (metaStr e.metadata "language" "unknown")
          file_path := metaStr e.metadata "file_path" ""
          start_line := metaInt e.metadata "start_line"
          end_line := metaInt e.metadata "end_line"
          element_name :=
            (dictGet e.metadata "element_name").bind (fun v =>
              match v with | .vstr s => some s | _ => none)
          element_type :=
            (dictGet e.metadata "element_type").bind (fun v =>
              match v with | .vstr s => some s | _ => none)
          metadata := e.metadata }
      similarity_score := similarityOf e.distance
      distance := e.distance
      rank := i + 1 })

/-- `ChromaVectorStore.search`: query the backend with at most one metadata
predicate and the capped result count, then discard results below the
query's similarity threshold.  The backend is an explicit parameter taking
the query text, the optional predicate and the result cap. -/
def search (cfg : VectorStoreConfig)
    (backend : String → Option WhereClause → Nat → List BackendEntry)
    (q : SearchQuery) : List SearchResultM :=
  let entries := backend q.query (buildWhere q) (min q.max_results cfg.max_results)
  (searchResultsOf entries).filter
    (fun r => q.similarity_threshold ≤ r.similarity_score)

/-- `np.linalg.norm`: the L2 norm of a vector. -/
noncomputable def l2norm (v : List ℝ) : ℝ :=
  Real.sqrt ((v.map (fun x => x * x)).sum)

/-- `CodeEmbedder._normalize_embedding`: divide by the L2 norm when it is
positive, otherwise return the vector unchanged. -/
noncomputable def normalizeEmbedding (v : List ℝ) : List ℝ :=
  if 0 < l2norm v then v.map (fun x => x / l2norm v) else v

theorem toDigitsCore_len_ge (b : Nat) :
    ∀ (f n : Nat) (l : List Char),
      l.length ≤ (Nat.toDigitsCore b f n l).length := by
  intro f
  induction f with
  | zero => intro n l; simp [Nat.toDigitsCore]
  | succ f ih =>
    intro n l
    simp only [Nat.toDigitsCore]
    split
    · simp
    · calc l.length ≤ (Nat.digitChar (n % b) :: l).length := by simp
        _ ≤ _ := ih (n / b) (Nat.digitChar (n % b) :: l)

theorem strMk_ne_empty (l : List Char) (h : l ≠ []) : String.mk l ≠ "" := by
  intro hc
  exact h (congrArg String.data hc)

theorem natRepr_ne_empty (n : Nat) : natRepr n ≠ "" := by
  apply strMk_ne_empty
  have h1 : 1 ≤ (Nat.toDigits 10 n).length := by
    unfold Nat.toDigits
    simp only [Nat.toDigitsCore]
    split
    · simp
    · calc (1 : Nat) = ([Nat.digitChar (n % 10)] : List Char).length := rfl
        _ ≤ _ := toDigitsCore_len_ge 10 n (n / 10) [Nat.digitChar (n % 10)]
  intro hc
  rw [hc] at h1
  simp at h1

theorem str_append_ne_empty_left (a b : String) (h : a ≠ "") :
    a ++ b ≠ "" := by
  intro hc
  have hd := congrArg String.data hc
  simp only [String.data_append] at hd
  rcases List.append_eq_nil.mp hd with ⟨ha, _⟩
  exact h (String.ext ha)

theorem intRepr_ne_empty (n : Int) : intRepr n ≠ "" := by
  unfold intRepr
  split
  · exact str_append_ne_empty_left _ _ (by decide)
  · exact natRepr_ne_empty _

theorem pyRepr_ne_empty (v : Value) : pyRepr v ≠ "" := by
  cases v with
  | vnone => decide
  | vbool b => cases b <;> decide
  | vint n => exact intRepr_ne_empty n
  | vrat q =>
    exact str_append_ne_empty_left _ _
      (str_append_ne_empty_left _ _ (intRepr_ne_empty _))
  | vstr s =>
    exact str_append_ne_empty_left _ _
      (str_append_ne_empty_left _ _ (by decide))
  | vlist xs =>
    exact str_append_ne_empty_left _ _
      (str_append_ne_empty_left _ _ (by decide))
  | vdict xs =>
    exact str_append_ne_empty_left _ _
      (str_append_ne_empty_left _ _ (by decide))

theorem pyReprList_cons_ne_empty (x : Value) (xs : List Value) :
    pyReprList (x :: xs) ≠ "" := by
  cases xs with
  | nil => exact pyRepr_ne_empty x
  | cons y ys =>
    exact str_append_ne_empty_left _ _
      (str_append_ne_empty_left _ _ (pyRepr_ne_empty x))

theorem pyReprDict_cons_ne_empty (p : String × Value)
    (ps : List (String × Value)) : pyReprDict (p :: ps) ≠ "" := by
  rcases p with ⟨k, v⟩
  cases ps with
  | nil =>
    exact str_append_ne_empty_left _ _
      (str_append_ne_empty_left _ _
        (str_append_ne_empty_left _ _ (by decide)))
  | cons q qs =>
    exact str_append_ne_empty_left _ _
      (str_append_ne_empty_left _ _
        (str_append_ne_empty_left _ _
          (str_append_ne_empty_left _ _
            (str_append_ne_empty_left _ _ (by decide)))))

theorem bracket_notin_sentinels (s : String) (h : s ≠ "") :
    isSentinel (.vstr ("[" ++ s ++ "]")) = false := by
  have h4 : ∀ t : String,
      ("[" ++ s ++ "]" = t → t.data.head? ≠ some (Char.ofNat 91) → False) := by
    intro t hc hh
    apply hh
    rw [← hc]
    simp [String.data_append]
  simp only [isSentinel, Bool.or_eq_false_iff, beq_eq_false_iff_ne, ne_eq]
  refine ⟨⟨⟨?_, ?_⟩, ?_⟩, ?_⟩
  · intro hc; exact h4 "null" hc (by decide)
  · intro hc
    have hd := congrArg String.data hc
    simp only [String.data_append] at hd
    simp at hd
    exact h (String.ext hd)
  · intro hc; exact h4 "\x7b\x7d" hc (by decide)
  · intro hc; exact h4 "empty" hc (by decide)

theorem brace_notin_sentinels (s : String) (h : s ≠ "") :
    isSentinel (.vstr ("\x7b" ++ s ++ "\x7d")) = false := by
  have h4 : ∀ t : String,
      ("\x7b" ++ s ++ "\x7d" = t → t.data.head? ≠ some (Char.ofNat 123) →
        False) := by
    intro t hc hh
    apply hh
    rw [← hc]
    simp [String.data_append]
  simp only [isSentinel, Bool.or_eq_false_iff, beq_eq_false_iff_ne, ne_eq]
  refine ⟨⟨⟨?_, ?_⟩, ?_⟩, ?_⟩
  · intro hc; exact h4 "null" hc (by decide)
  · intro hc; exact h4 "[]" hc (by decide)
  · intro hc
    have hd := congrArg String.data hc
    simp only [String.data_append] at hd
    simp at hd
    exact h (String.ext hd)
  · intro hc; exact h4 "empty" hc (by decide)

theorem sanitize_scalar (v : Value) :
    isScalarValue (sanitizeMetadataValue v) = true := by
  cases v
  case vlist xs =>
    by_cases h : xs.isEmpty <;>
      simp [sanitizeMetadataValue, h, isScalarValue]
  case vdict xs =>
    by_cases h : xs.isEmpty <;>
      simp [sanitizeMetadataValue, h, isScalarValue]
  all_goals rfl

theorem sanitize_falsy (v : Value) (h : pyTruthy v = false) :
    pyTruthy (sanitizeMetadataValue v) = false ∨
    isSentinel (sanitizeMetadataValue v) = true := by
  cases v with
  | vnone => right; rfl
  | vbool b => left; exact h
  | vint n => left; exact h
  | vrat q => left; exact h
  | vstr s => left; exact h
  | vlist xs =>
    right
    simp only [pyTruthy, Bool.not_eq_false'] at h
    simp [sanitizeMetadataValue, h, isSentinel]
  | vdict xs =>
    right
    simp only [pyTruthy, Bool.not_eq_false'] at h
    simp [sanitizeMetadataValue, h, isSentinel]

/-- C7: the claim as stated fails — values that are Python-falsy (`False`,
`0`, the empty string) or whose sanitized form is a sentinel string are
dropped, not stored unchanged.  Amended: truthy strings that are not
sentinel strings, `True`, and nonzero numbers pass through unchanged under
their key; a string equal to one of the sentinel strings is dropped;
nonempty lists and mappings are stored as their string serialization;
falsy values (including `None`, normalized to `"null"` first) are dropped;
and every stored value is a scalar. -/
theorem C7_metadata_scalarization (key : String) (v : Value) :
    (pyTruthy v = false → processMetaPair key v = none) ∧
    (∀ s, v = .vstr s → s ≠ "" → isSentinel (.vstr s) = false →
      processMetaPair key v = some (key, v)) ∧
    (∀ s, v = .vstr s → isSentinel (.vstr s) = true →
      processMetaPair key v = none) ∧
    (v = .vbool true → processMetaPair key v = some (key, v)) ∧
    (∀ n : Int, v = .vint n → n ≠ 0 →
      processMetaPair key v = some (key, v)) ∧
    (∀ q : ℚ, v = .vrat q → q ≠ 0 →
      processMetaPair key v = some (key, v)) ∧
    (∀ x xs, v = .vlist (x :: xs) →
      processMetaPair key v = some (key, .vstr (pyRepr v))) ∧
    (∀ p ps, v = .vdict (p :: ps) →
      processMetaPair key v = some (key, .vstr (pyRepr v))) ∧
    (∀ r, processMetaPair key v = some r → isScalarValue r.2 = true) := by
  refine ⟨?_, ?_, ?_, ?_, ?_, ?_, ?_, ?_, ?_⟩
  · intro h
    unfold processMetaPair
    by_cases hk : (key = "parameters" ∨ key = "methods" ∨
        key = "dependencies") ∧ ¬ pyTruthy v
    · simp [hk]
    · rw [if_neg hk]
      rcases sanitize_falsy v h with h2 | h2 <;> simp [h2]
  · rintro s rfl hs hsent
    have ht : pyTruthy (Value.vstr s) = true := by
      simpa [pyTruthy] using hs
    unfold processMetaPair
    rw [if_neg (by simp [ht])]
    simp [sanitizeMetadataValue, ht, hsent]
  · rintro s rfl hsent
    unfold processMetaPair
    by_cases hk : (key = "parameters" ∨ key = "methods" ∨
        key = "dependencies") ∧ ¬ pyTruthy (Value.vstr s)
    · simp [hk]
    · rw [if_neg hk]
      simp [sanitizeMetadataValue, hsent]
  · rintro rfl
    unfold processMetaPair
    simp [pyTruthy, sanitizeMetadataValue, isSentinel]
  · rintro n rfl hn
    have ht : pyTruthy (Value.vint n) = true := by
      simpa [pyTruthy] using hn
    unfold processMetaPair
    rw [if_neg (by simp [ht])]
    simp [sanitizeMetadataValue, ht, isSentinel]
  · rintro q rfl hq
    have ht : pyTruthy (Value.vrat q) = true := by
      simpa [pyTruthy] using hq
    unfold processMetaPair
    rw [if_neg (by simp [ht])]
    simp [sanitizeMetadataValue, ht, isSentinel]
  · rintro x xs rfl
    have ht : pyTruthy (Value.vlist (x :: xs)) = true := by simp [pyTruthy]
    have hrepr :
        sanitizeMetadataValue (Value.vlist (x :: xs)) =
          .vstr (pyRepr (Value.vlist (x :: xs))) := by
      simp [sanitizeMetadataValue]
    have hne : pyRepr (Value.vlist (x :: xs)) ≠ "" := pyRepr_ne_empty _
    have hsent :
        isSentinel (.vstr (pyRepr (Value.vlist (x :: xs)))) = false := by
      show isSentinel (.vstr ("[" ++ pyReprList (x :: xs) ++ "]")) = false
      exact bracket_notin_sentinels _ (pyReprList_cons_ne_empty x xs)
    unfold processMetaPair
    rw [if_neg (by simp [ht])]
    rw [hrepr]
    simp [pyTruthy, hne, hsent]
  · rintro p ps rfl
    have ht : pyTruthy (Value.vdict (p :: ps)) = true := by simp [pyTruthy]
    have hrepr :
        sanitizeMetadataValue (Value.vdict (p :: ps)) =
          .vstr (pyRepr (Value.vdict (p :: ps))) := by
      simp [sanitizeMetadataValue]
    have hne : pyRepr (Value.vdict (p :: ps)) ≠ "" := pyRepr_ne_empty _
    have hsent :
        isSentinel (.vstr (pyRepr (Value.vdict (p :: ps)))) = false := by
      show isSentinel (.vstr ("\x7b" ++ pyReprDict (p :: ps) ++ "\x7d")) =
        false
      exact brace_notin_sentinels _ (pyReprDict_cons_ne_empty p ps)
    unfold processMetaPair
    rw [if_neg (by simp [ht])]
    rw [hrepr]
    simp [pyTruthy, hne, hsent]
  · intro r h
    simp only [processMetaPair] at h
    split at h
    · exact absurd h (by simp)
    · split at h
      · have h2 : r.2 = sanitizeMetadataValue v := by
          have := (Option.some.injEq _ _).mp h
          rw [← this]
        rw [h2]
        exact sanitize_scalar v
      · exact absurd h (by simp)

/-- C7 counterexample: the boolean value `False` under key `"flag"` is not
stored unchanged under its key — the add operation drops the pair. -/
theorem C7_counterexample :
    processMetaPair "flag" (.vbool false) = none ∧
    addChunkMetadata [] [("flag", .vbool false)] = [] := ⟨rfl, rfl⟩

/-- C7 witness: a nonzero int passes through unchanged, a nonempty
non-sentinel string passes through unchanged, the truthy sentinel string
`"null"` is dropped, and a `None` value is dropped. -/
theorem C7_witness :
    processMetaPair "complexity_score" (.vint 5) =
      some ("complexity_score", .vint 5) ∧
    processMetaPair "docstring" (.vstr "adds") =
      some ("docstring", .vstr "adds") ∧
    processMetaPair "status" (.vstr "null") = none ∧
    processMetaPair "parent_class" .vnone = none := by
  refine ⟨?_, ?_, ?_, ?_⟩
  · exact (C7_metadata_scalarization "complexity_score"
      (.vint 5)).2.2.2.2.1 5 rfl (by norm_num)
  · exact (C7_metadata_scalarization "docstring" (.vstr "adds")).2.1
      "adds" rfl (by decide) (by decide)
  · exact (C7_metadata_scalarization "status" (.vstr "null")).2.2.1
      "null" rfl (by decide)
  · exact (C7_metadata_scalarization "parent_class" .vnone).1 rfl

/-- C4: a query supplying a (single-element) element-kind filter and a
language filter sends exactly the element-kind predicate to the backend,
and is answered identically to the same query with the language filter
removed. -/
theorem C4_filter_precedence (cfg : VectorStoreConfig)
    (backend : String → Option WhereClause → Nat → List BackendEntry)
    (q : SearchQuery) (t : String) (h : q.element_types = [t]) :
    buildWhere q = some (.elementType t) ∧
    search cfg backend q = search cfg backend { q with language := none } := by
  have hw : buildWhere q = some (.elementType t) := by
    unfold buildWhere
    rw [h]
  have hw2 : buildWhere { q with language := none } =
      some (.elementType t) := by
    unfold buildWhere
    show (match q.element_types with
      | [t] => some (WhereClause.elementType t)
      | _ => match (none : Option String) with
        | some l =>
          if l ≠ "" then some (WhereClause.language (getLanguageValue (some l)))
          else none
        | none => none) = some (WhereClause.elementType t)
    rw [h]
  refine ⟨hw, ?_⟩
  unfold search
  rw [hw, hw2]

/-- C4 witness: a concrete query with both filters is answered as if the
language filter were absent; the predicate sent is the element-kind one. -/
theorem C4_witness :
    buildWhere { query := "parse", language := some "python",
                 element_types := ["function"] } =
      some (.elementType "function") ∧
    search {} (fun _ _ _ => [])
        { query := "parse", language := some "python",
          element_types := ["function"] } =
      search {} (fun _ _ _ => [])
        { query := "parse", language := none,
          element_types := ["function"] } := by
  have h := C4_filter_precedence {} (fun _ _ _ => [])
    { query := "parse", language := some "python",
      element_types := ["function"] } "function" rfl
  exact ⟨h.1, h.2⟩

/-- C5: `chunk_file` never raises — when no parser is available or parsing
fails it returns the fallback sliding-window chunking of the raw file text,
and when reading the file also fails the fallback returns the empty
sequence. -/
theorem C5_chunk_file_fallback (cfg : ChunkingConfig) (env : FileEnv)
    (path : String) :
    (env.parserAvailable = false ∨ env.parseOk = false →
      chunkFile cfg env path = fallbackChunking cfg env path) ∧
    (env.rawContent = none → fallbackChunking cfg env path = []) ∧
    (∀ c, env.rawContent = some c →
      fallbackChunking cfg env path = slidingWindowChunking cfg c path) := by
  refine ⟨?_, ?_, ?_⟩
  · rintro (h | h)
    · simp [chunkFile, h]
    · cases hp : env.parserAvailable <;> simp [chunkFile, h, hp]
  · intro h
    simp [fallbackChunking, h]
  · intro c h
    simp [fallbackChunking, h]

/-- C5 witness: with no parser available and an unreadable file, the result
of `chunk_file` is the fallback, which is empty. -/
theorem C5_witness :
    chunkFile {} ⟨false, true, {}, none, none⟩ "a.py" =
      fallbackChunking {} ⟨false, true, {}, none, none⟩ "a.py" ∧
    fallbackChunking {} ⟨false, true, {}, none, none⟩ "a.py" = [] := by
  have h := C5_chunk_file_fallback {} ⟨false, true, {}, none, none⟩ "a.py"
  exact ⟨h.1 (Or.inl rfl), h.2.1 rfl⟩

/-- C10: chunks from the fallback path are exactly the sliding-window
chunks of the raw text and bypass post-processing (which, applied to such a
small fallback chunk, would have dropped it), whereas a successful parse
always routes the strategy chunks through post-processing. -/
theorem C10_fallback_bypasses_postprocessing (cfg : ChunkingConfig)
    (env : FileEnv) (path : String) :
    ((env.parserAvailable = false ∨ env.parseOk = false) →
      ∀ c, env.rawContent = some c →
        chunkFile cfg env path = slidingWindowChunking cfg c path) ∧
    (∀ content, env.parserAvailable = true → env.parseOk = true →
      env.parsedContent = some content →
      chunkFile cfg env path =
        postProcessChunks cfg (strategyChunks cfg env.analysis content path)) ∧
    postProcessChunks {} (slidingWindowChunking {} "x" path) = [] ∧
    slidingWindowChunking {} "x" path ≠ [] := by
  refine ⟨?_, ?_, rfl, ?_⟩
  · rintro (h | h) c hc
    · simp [chunkFile, h, fallbackChunking, hc]
    · cases hp : env.parserAvailable <;>
        simp [chunkFile, h, hp, fallbackChunking, hc]
  · intro content h1 h2 h3
    simp [chunkFile, h1, h2, h3]
  · intro h
    have hl : (slidingWindowChunking {} "x" path).length = 1 := rfl
    rw [h] at hl
    simp at hl

/-- C10 witness: a file whose parse fails yields raw sliding-window chunks;
a parsed file yields post-processed strategy chunks. -/
theorem C10_witness :
    chunkFile {} ⟨false, true, {}, none, some "x"⟩ "a.py" =
      slidingWindowChunking {} "x" "a.py" ∧
    chunkFile {} ⟨true, true, {}, some "y", none⟩ "a.py" =
      postProcessChunks {} (strategyChunks {} {} "y" "a.py") := by
  constructor
  · exact (C10_fallback_bypasses_postprocessing {}
      ⟨false, true, {}, none, some "x"⟩ "a.py").1 (Or.inl rfl) "x" rfl
  · exact (C10_fallback_bypasses_postprocessing {}
      ⟨true, true, {}, some "y", none⟩ "a.py").2.1 "y" rfl rfl rfl

theorem assocSet_fst_eq {β : Type} (k : String)
    (v : β) (p : String × β) :
    ((if p.1 = k then (k, v) else p) : String × β).1 = p.1 := by
  split
  · simp_all
  · rfl

theorem assocSet_keys {β : Type} (d : List (String × β)) (k : String)
    (v : β) (h : d.any (fun p => p.1 = k) = true) :
    (assocSet d k v).map Prod.fst = d.map Prod.fst := by
  unfold assocSet
  rw [if_pos h, List.map_map]
  apply List.map_congr_left
  intro p _
  exact assocSet_fst_eq k v p

theorem assocSet_any_self {β : Type} (d : List (String × β)) (k : String)
    (v : β) : (assocSet d k v).any (fun p => p.1 = k) = true := by
  unfold assocSet
  split
  · rename_i h
    rw [List.any_eq_true] at h ⊢
    rcases h with ⟨p, hp, hpk⟩
    refine ⟨if p.1 = k then (k, v) else p, List.mem_map_of_mem _ hp, ?_⟩
    simp at hpk
    simp [hpk]
  · rw [List.any_eq_true]
    exact ⟨(k, v), by simp, by simp⟩

theorem assocSet_idem {β : Type} (d : List (String × β)) (k : String)
    (v : β) : assocSet (assocSet d k v) k v = assocSet d k v := by
  have hany := assocSet_any_self d k v
  by_cases h : d.any (fun p => p.1 = k) = true
  · have e1 : assocSet d k v =
        d.map (fun p => if p.1 = k then (k, v) else p) := by
      unfold assocSet
      rw [if_pos h]
    rw [e1] at hany ⊢
    unfold assocSet
    rw [if_pos hany, List.map_map]
    apply List.map_congr_left
    intro p _
    by_cases hp : p.1 = k
    · simp [hp]
    · simp [hp]
  · have e1 : assocSet d k v = d ++ [(k, v)] := by
      unfold assocSet
      rw [if_neg h]
    rw [e1] at hany ⊢
    unfold assocSet
    rw [if_pos hany, List.map_append]
    have h1 : (d.map fun p => if p.1 = k then (k, v) else p) = d := by
      conv_rhs => rw [← List.map_id d]
      apply List.map_congr_left
      intro p hp
      have hpk : ¬ p.1 = k := by
        intro hc
        exact h (List.any_eq_true.mpr ⟨p, hp, by simp [hc]⟩)
      simp [hpk]
    rw [h1]
    simp

theorem countP_key_of_nodup {β : Type} :
    ∀ (d : List (String × β)), (d.map Prod.fst).Nodup →
      ∀ k : String, d.any (fun p => p.1 = k) = true →
        d.countP (fun p => p.1 = k) = 1 := by
  intro d
  induction d with
  | nil => simp
  | cons a rest ih =>
    intro hnd k hany
    simp only [List.map_cons, List.nodup_cons] at hnd
    by_cases hk : a.1 = k
    · rw [List.countP_cons_of_pos _ _ (by simp [hk])]
      have h0 : rest.countP (fun p => p.1 = k) = 0 := by
        rw [List.countP_eq_zero]
        intro p hp
        simp only [decide_eq_true_eq]
        intro hc
        exact hnd.1 (hk ▸ hc ▸ List.mem_map_of_mem Prod.fst hp)
      rw [h0]
    · rw [List.countP_cons_of_neg _ _ (by simp [hk])]
      apply ih hnd.2 k
      simpa [hk] using hany

theorem assocSet_countP_self {β : Type} (d : List (String × β)) (k : String)
    (v : β) (hnd : (d.map Prod.fst).Nodup) :
    (assocSet d k v).countP (fun p => p.1 = k) = 1 := by
  by_cases h : d.any (fun p => p.1 = k) = true
  · have hk1 : ((assocSet d k v).map Prod.fst).Nodup := by
      rw [assocSet_keys d k v h]
      exact hnd
    exact countP_key_of_nodup (assocSet d k v) hk1 k (assocSet_any_self d k v)
  · unfold assocSet
    rw [if_neg h, List.countP_append]
    have h0 : d.countP (fun p => p.1 = k) = 0 := by
      rw [List.countP_eq_zero]
      intro p hp
      simp only [decide_eq_true_eq]
      intro hc
      exact h (List.any_eq_true.mpr ⟨p, hp, by simp [hc]⟩)
    rw [h0, List.countP_cons_of_pos _ _ (by simp), List.countP_nil]

/-- C1: the record id is a deterministic function of
`(file_path, start_line, end_line, element_name, element_type)`, and adding
the same embedding record twice leaves the collection exactly as after the
first add — in particular exactly one record sits under that id (for a
collection without duplicate ids) and the record count is unchanged by the
second add. -/
theorem C1_id_determinism_and_idempotence :
    (∀ c1 c2 : DocumentChunk,
      c1.file_path = c2.file_path → c1.start_line = c2.start_line →
      c1.end_line = c2.end_line → c1.element_name = c2.element_name →
      c1.element_type = c2.element_type →
      generateChunkId c1 = generateChunkId c2) ∧
    (∀ (coll : List (String × StoredRecord)) (r : EmbeddingResult),
      addEmbeddings (addEmbeddings coll [r]) [r] = addEmbeddings coll [r]) ∧
    (∀ (coll : List (String × StoredRecord)) (r : EmbeddingResult),
      (coll.map Prod.fst).Nodup →
      (addEmbeddings (addEmbeddings coll [r]) [r]).countP
          (fun p => p.1 = generateChunkId r.chunk) = 1 ∧
      (addEmbeddings (addEmbeddings coll [r]) [r]).length =
        (addEmbeddings coll [r]).length) := by
  refine ⟨?_, ?_, ?_⟩
  · intro c1 c2 h1 h2 h3 h4 h5
    unfold generateChunkId
    rw [h1, h2, h3, h4, h5]
  · intro coll r
    exact assocSet_idem coll (generateChunkId r.chunk) (storedRecordOf r)
  · intro coll r hnd
    constructor
    · show (assocSet
          (assocSet coll (generateChunkId r.chunk) (storedRecordOf r))
          (generateChunkId r.chunk) (storedRecordOf r)).countP
          (fun p => p.1 = generateChunkId r.chunk) = 1
      rw [assocSet_idem coll _ _]
      exact assocSet_countP_self coll _ _ hnd
    · show (assocSet
          (assocSet coll (generateChunkId r.chunk) (storedRecordOf r))
          (generateChunkId r.chunk) (storedRecordOf r)).length =
          (assocSet coll (generateChunkId r.chunk) (storedRecordOf r)).length
      rw [assocSet_idem coll _ _]

/-- C1 witness: adding one concrete record twice to the empty collection
leaves one record under its id and the same count as after the first add;
two chunks agreeing on the five identity fields get the same id. -/
theorem C1_witness :
    generateChunkId
        { content := "def f(): pass", file_path := "a.py", start_line := 1,
          end_line := 2, element_name := some "f",
          element_type := some "function" } =
      generateChunkId
        { content := "def f(): return 1", file_path := "a.py",
          start_line := 1, end_line := 2, element_name := some "f",
          element_type := some "function" } ∧
    (addEmbeddings
        (addEmbeddings []
          [{ chunk := { content := "def f(): pass", file_path := "a.py",
                        start_line := 1, end_line := 2,
                        element_name := some "f",
                        element_type := some "function" },
             embedding := [], model_name := "m",
             embedding_dimension := 0 }])
        [{ chunk := { content := "def f(): pass", file_path := "a.py",
                      start_line := 1, end_line := 2,
                      element_name := some "f",
                      element_type := some "function" },
           embedding := [], model_name := "m",
           embedding_dimension := 0 }]).countP
        (fun p => p.1 = generateChunkId
          { content := "def f(): pass", file_path := "a.py", start_line := 1,
            end_line := 2, element_name := some "f",
            element_type := some "function" }) = 1 ∧
    (addEmbeddings
        (addEmbeddings []
          [{ chunk := { content := "def f(): pass", file_path := "a.py",
                        start_line := 1, end_line := 2,
                        element_name := some "f",
                        element_type := some "function" },
             embedding := [], model_name := "m",
             embedding_dimension := 0 }])
        [{ chunk := { content := "def f(): pass", file_path := "a.py",
                      start_line := 1, end_line := 2,
                      element_name := some "f",
                      element_type := some "function" },
           embedding := [], model_name := "m",
           embedding_dimension := 0 }]).length =
      (addEmbeddings []
        [{ chunk := { content := "def f(): pass", file_path := "a.py",
                      start_line := 1, end_line := 2,
                      element_name := some "f",
                      element_type := some "function" },
           embedding := [], model_name := "m",
           embedding_dimension := 0 }]).length := by
  refine ⟨?_, ?_, ?_⟩
  · exact C1_id_determinism_and_idempotence.1
      { content := "def f(): pass", file_path := "a.py", start_line := 1,
        end_line := 2, element_name := some "f",
        element_type := some "function" }
      { content := "def f(): return 1", file_path := "a.py",
        start_line := 1, end_line := 2, element_name := some "f",
        element_type := some "function" }
      rfl rfl rfl rfl rfl
  · exact (C1_id_determinism_and_idempotence.2.2 []
      { chunk := { content := "def f(): pass", file_path := "a.py",
                   start_line := 1, end_line := 2,
                   element_name := some "f",
                   element_type := some "function" },
        embedding := [], model_name := "m",
        embedding_dimension := 0 } (by simp)).1
  · exact (C1_id_determinism_and_idempotence.2.2 []
      { chunk := { content := "def f(): pass", file_path := "a.py",
                   start_line := 1, end_line := 2,
                   element_name := some "f",
                   element_type := some "function" },
        embedding := [], model_name := "m",
        embedding_dimension := 0 } (by simp)).2

theorem sumSq_nonneg (v : List ℝ) : 0 ≤ (v.map (fun x => x * x)).sum := by
  apply List.sum_nonneg
  intro x hx
  rcases List.mem_map.mp hx with ⟨y, _, rfl⟩
  exact mul_self_nonneg y

theorem sumSq_div (v : List ℝ) (n : ℝ) :
    ((v.map (fun x => x / n)).map (fun x => x * x)).sum =
      (v.map (fun x => x * x)).sum / n ^ 2 := by
  induction v with
  | nil => simp
  | cons x xs ih =>
    simp only [List.map_cons, List.sum_cons, ih]
    ring

/-- C8: the normalization step divides each component by the L2 norm when
the norm is nonzero — the result then has L2 norm exactly 1 — and returns a
zero-norm vector unchanged, so no division by zero occurs. -/
theorem C8_normalization (v : List ℝ) :
    (l2norm v ≠ 0 →
      normalizeEmbedding v = v.map (fun x => x / l2norm v) ∧
      l2norm (normalizeEmbedding v) = 1) ∧
    (l2norm v = 0 → normalizeEmbedding v = v) := by
  constructor
  · intro h
    have hpos : 0 < l2norm v :=
      lt_of_le_of_ne (Real.sqrt_nonneg _) (Ne.symm h)
    have he : normalizeEmbedding v = v.map (fun x => x / l2norm v) := by
      unfold normalizeEmbedding
      rw [if_pos hpos]
    refine ⟨he, ?_⟩
    rw [he]
    have hS : 0 ≤ (v.map (fun x => x * x)).sum := sumSq_nonneg v
    have hSne : (v.map (fun x => x * x)).sum ≠ 0 := by
      intro hc
      apply h
      unfold l2norm
      rw [hc, Real.sqrt_zero]
    show Real.sqrt _ = 1
    rw [show ((v.map (fun x => x / l2norm v)).map (fun x => x * x)).sum =
        (v.map (fun x => x * x)).sum / (l2norm v) ^ 2 from sumSq_div v _]
    unfold l2norm
    rw [Real.sq_sqrt hS, div_self hSne, Real.sqrt_one]
  · intro h
    unfold normalizeEmbedding
    rw [if_neg]
    rw [h]
    exact lt_irrefl 0

/-- C8 witness: `[3, 4]` has nonzero norm and normalizes to a unit vector;
the all-zero vector is returned unchanged. -/
theorem C8_witness :
    l2norm [(3 : ℝ), 4] ≠ 0 ∧
    l2norm (normalizeEmbedding [(3 : ℝ), 4]) = 1 ∧
    normalizeEmbedding [(0 : ℝ), 0] = [0, 0] := by
  have h3 : l2norm [(3 : ℝ), 4] ≠ 0 := by
    unfold l2norm
    rw [show (([(3 : ℝ), 4]).map (fun x => x * x)).sum = 25 by norm_num]
    rw [Real.sqrt_ne_zero']
    norm_num
  have h0 : l2norm [(0 : ℝ), 0] = 0 := by
    unfold l2norm
    rw [show (([(0 : ℝ), 0]).map (fun x => x * x)).sum = 0 by norm_num]
    exact Real.sqrt_zero
  exact ⟨h3, ((C8_normalization [(3 : ℝ), 4]).1 h3).2,
    (C8_normalization [(0 : ℝ), 0]).2 h0⟩

theorem similarityOf_eq (d : ℚ) : similarityOf d = 1 - d := by
  unfold similarityOf
  split
  · rfl
  · simp_all

theorem searchResultsOf_sim (entries : List BackendEntry) :
    ∀ r ∈ searchResultsOf entries,
      r.similarity_score = similarityOf r.distance := by
  intro r hr
  unfold searchResultsOf at hr
  rcases List.mem_map.mp hr with ⟨⟨i, e⟩, _, rfl⟩
  rfl

theorem searchResultsOf_length (entries : List BackendEntry) :
    (searchResultsOf entries).length = entries.length := by
  simp [searchResultsOf]

theorem searchResultsOf_get (entries : List BackendEntry) (j : Nat)
    (hj2 : j < (searchResultsOf entries).length) :
    ((searchResultsOf entries).get ⟨j, hj2⟩).rank = j + 1 ∧
    ((searchResultsOf entries).get ⟨j, hj2⟩).distance =
      (entries.get ⟨j, by simpa [searchResultsOf_length] using hj2⟩).distance ∧
    ((searchResultsOf entries).get ⟨j, hj2⟩).similarity_score =
      similarityOf
        (entries.get ⟨j, by simpa [searchResultsOf_length] using hj2⟩).distance := by
  have hj : j < entries.length := by
    simpa [searchResultsOf_length] using hj2
  unfold searchResultsOf
  simp [List.get_eq_getElem, List.getElem_map, List.getElem_enum]

theorem filter_eq_takeWhile_of_mono {α : Type} (p : α → Bool) :
    ∀ (l : List α),
      (∀ i j (hi : i < l.length) (hj : j < l.length), i ≤ j →
        p (l.get ⟨j, hj⟩) = true → p (l.get ⟨i, hi⟩) = true) →
      l.filter p = l.takeWhile p := by
  intro l
  induction l with
  | nil => intro _; rfl
  | cons x xs ih =>
    intro hmono
    by_cases hx : p x = true
    · rw [List.filter_cons_of_pos hx, List.takeWhile_cons_of_pos hx]
      have hshift : ∀ i j (hi : i < xs.length) (hj : j < xs.length), i ≤ j →
          p (xs.get ⟨j, hj⟩) = true → p (xs.get ⟨i, hi⟩) = true := by
        intro i j hi hj hij hpj
        have h1 := hmono (i + 1) (j + 1) (Nat.succ_lt_succ hi)
          (Nat.succ_lt_succ hj) (Nat.succ_le_succ hij)
        simp only [List.get_eq_getElem, List.getElem_cons_succ] at h1
        exact h1 hpj
      rw [ih hshift]
    · have hxf : p x = false := Bool.eq_false_iff.mpr hx
      rw [List.filter_cons_of_neg (by simp [hxf]),
        List.takeWhile_cons_of_neg (by simp [hxf])]
      rw [List.filter_eq_nil_iff]
      intro a ha hpa
      rcases List.mem_iff_get.mp ha with ⟨⟨j, hj⟩, rfl⟩
      have h1 := hmono 0 (j + 1) (Nat.succ_pos _) (Nat.succ_lt_succ hj)
        (Nat.zero_le _)
      simp only [List.get_eq_getElem, List.getElem_cons_succ,
        List.getElem_cons_zero] at h1
      exact hx (h1 (by simpa using hpa))

/-- C2: every returned result's similarity score equals `1 - distance`;
results below the similarity threshold are discarded after the backend call
(whose result cap `min(query.max_results, index.max_results)` bounds the
output length); and when the backend returns distances in nondecreasing
order, the surviving results carry ranks `1..k` consecutively. -/
theorem C2_search_contract (cfg : VectorStoreConfig)
    (backend : String → Option WhereClause → Nat → List BackendEntry)
    (q : SearchQuery) :
    (∀ r ∈ search cfg backend q, r.similarity_score = 1 - r.distance) ∧
    (∀ r ∈ search cfg backend q,
      q.similarity_threshold ≤ r.similarity_score) ∧
    ((backend q.query (buildWhere q)
        (min q.max_results cfg.max_results)).length ≤
        min q.max_results cfg.max_results →
      (search cfg backend q).length ≤ min q.max_results cfg.max_results) ∧
    ((backend q.query (buildWhere q)
        (min q.max_results cfg.max_results)).Pairwise
        (fun a b => a.distance ≤ b.distance) →
      ∀ j (hj : j < (search cfg backend q).length),
        ((search cfg backend q).get ⟨j, hj⟩).rank = j + 1) := by
  set entries :=
    backend q.query (buildWhere q) (min q.max_results cfg.max_results)
    with hentries
  have hsearch : search cfg backend q =
      (searchResultsOf entries).filter
        (fun r => q.similarity_threshold ≤ r.similarity_score) := rfl
  refine ⟨?_, ?_, ?_, ?_⟩
  · intro r hr
    rw [hsearch] at hr
    have hr2 := List.mem_of_mem_filter hr
    rw [searchResultsOf_sim entries r hr2]
    exact similarityOf_eq r.distance
  · intro r hr
    rw [hsearch] at hr
    have := List.of_mem_filter hr
    exact of_decide_eq_true this
  · intro hcap
    rw [hsearch]
    calc ((searchResultsOf entries).filter _).length
        ≤ (searchResultsOf entries).length := List.length_filter_le _ _
      _ = entries.length := searchResultsOf_length entries
      _ ≤ _ := hcap
  · intro hsorted j hj
    have hmono : ∀ i j (hi : i < (searchResultsOf entries).length)
        (hj : j < (searchResultsOf entries).length), i ≤ j →
        (decide (q.similarity_threshold ≤
          ((searchResultsOf entries).get ⟨j, hj⟩).similarity_score)) = true →
        (decide (q.similarity_threshold ≤
          ((searchResultsOf entries).get ⟨i, hi⟩).similarity_score)) =
          true := by
      intro i j hi hj hij hpj
      rw [decide_eq_true_eq] at hpj ⊢
      rcases Nat.lt_or_ge i j with hlt | hge
      · have hi2 : i < entries.length := by
          simpa [searchResultsOf_length] using hi
        have hj2 : j < entries.length := by
          simpa [searchResultsOf_length] using hj
        have hd : (entries.get ⟨i, hi2⟩).distance ≤
            (entries.get ⟨j, hj2⟩).distance := by
          have := List.pairwise_iff_getElem.mp hsorted i j hi2 hj2 hlt
          simpa [List.get_eq_getElem] using this
        rw [(searchResultsOf_get entries i hi).2.2,
          (searchResultsOf_get entries j hj).2.2] at *
        rw [similarityOf_eq] at *
        linarith
      · have : i = j := Nat.le_antisymm hij hge
        subst this
        exact hpj
    have hfil := filter_eq_takeWhile_of_mono
      (fun r => q.similarity_threshold ≤ r.similarity_score)
      (searchResultsOf entries) hmono
    have hpre : search cfg backend q <+: searchResultsOf entries := by
      rw [hsearch, hfil]
      exact List.takeWhile_prefix _
    have hjL : j < (searchResultsOf entries).length :=
      lt_of_lt_of_le hj (hpre.length_le)
    have hgetp : (search cfg backend q).get ⟨j, hj⟩ =
        (searchResultsOf entries).get ⟨j, hjL⟩ := by
      simpa [List.get_eq_getElem] using hpre.getElem hj
    rw [hgetp]
    exact (searchResultsOf_get entries j hjL).1

/-- C2 witness: a concrete backend returning two distance-sorted rows under
the cap yields two results, ranks `1` and `2`, within the cap. -/
theorem C2_witness :
    (search {}
        (fun _ _ n =>
          ([⟨"id1", [], "doc1", 0⟩,
            ⟨"id2", [], "doc2", 0⟩] : List BackendEntry).take n)
        { query := "q", max_results := 10,
          similarity_threshold := 0 }).length ≤ min 10 50 ∧
    ((search {}
        (fun _ _ n =>
          ([⟨"id1", [], "doc1", 0⟩,
            ⟨"id2", [], "doc2", 0⟩] : List BackendEntry).take n)
        { query := "q", max_results := 10,
          similarity_threshold := 0 }).get ⟨0, by decide⟩).rank = 1 ∧
    ((search {}
        (fun _ _ n =>
          ([⟨"id1", [], "doc1", 0⟩,
            ⟨"id2", [], "doc2", 0⟩] : List BackendEntry).take n)
        { query := "q", max_results := 10,
          similarity_threshold := 0 }).get ⟨1, by decide⟩).rank = 2 := by
  have h := C2_search_contract {}
    (fun _ _ n =>
      ([⟨"id1", [], "doc1", 0⟩,
        ⟨"id2", [], "doc2", 0⟩] : List BackendEntry).take n)
    { query := "q", max_results := 10, similarity_threshold := 0 }
  exact ⟨h.2.2.1 (by decide), h.2.2.2 (by decide) 0 (by decide),
    h.2.2.2 (by decide) 1 (by decide)⟩

/-- C3: the claim as stated fails — post-processing first drops every
sub-minimum chunk that is not a function or class chunk, so three small
consecutive chunks of any other element kind never reach the merge step.
Amended: for three consecutive chunks each below `min_chunk_size` that
survive the drop step (function or class chunks), with merging enabled and
`min_chunk_size ≤ max_chunk_size`, post-processing yields exactly one
merged chunk spanning min/max of the members' line ranges, whose content is
the members' contents joined by a blank line and whose metadata records
`merged_chunk = true` and `original_chunks = 3`. -/
theorem C3_merge_small_chunks (cfg : ChunkingConfig)
    (c1 c2 c3 : DocumentChunk)
    (hm : cfg.merge_small_functions = true)
    (hmm : cfg.min_chunk_size ≤ cfg.max_chunk_size)
    (h1 : c1.content.length < cfg.min_chunk_size)
    (h2 : c2.content.length < cfg.min_chunk_size)
    (h3 : c3.content.length < cfg.min_chunk_size)
    (ht1 : c1.element_type = some "function" ∨ c1.element_type = some "class")
    (ht2 : c2.element_type = some "function" ∨ c2.element_type = some "class")
    (ht3 : c3.element_type = some "function" ∨
      c3.element_type = some "class") :
    postProcessChunks cfg [c1, c2, c3] = [createMergedChunk [c1, c2, c3]] ∧
    (createMergedChunk [c1, c2, c3]).start_line =
      min (min c1.start_line c2.start_line) c3.start_line ∧
    (createMergedChunk [c1, c2, c3]).end_line =
      max (max c1.end_line c2.end_line) c3.end_line ∧
    (createMergedChunk [c1, c2, c3]).content =
      c1.content ++ "\n\n" ++ c2.content ++ "\n\n" ++ c3.content ∧
    (createMergedChunk [c1, c2, c3]).metadata.lookup "merged_chunk" =
      some (.vbool true) ∧
    (createMergedChunk [c1, c2, c3]).metadata.lookup "original_chunks" =
      some (.vint 3) := by
  have k1 : ¬(c1.content.length < cfg.min_chunk_size ∧
      c1.element_type ≠ some "class" ∧ c1.element_type ≠ some "function") := by
    rcases ht1 with h | h <;> simp [h]
  have k2 : ¬(c2.content.length < cfg.min_chunk_size ∧
      c2.element_type ≠ some "class" ∧ c2.element_type ≠ some "function") := by
    rcases ht2 with h | h <;> simp [h]
  have k3 : ¬(c3.content.length < cfg.min_chunk_size ∧
      c3.element_type ≠ some "class" ∧ c3.element_type ≠ some "function") := by
    rcases ht3 with h | h <;> simp [h]
  have t1 : ¬(cfg.max_chunk_size < c1.content.length) := by omega
  have t2 : ¬(cfg.max_chunk_size < c2.content.length) := by omega
  have t3 : ¬(cfg.max_chunk_size < c3.content.length) := by omega
  have m1 : c1.content.length < cfg.min_chunk_size * 2 := by omega
  have m2 : c2.content.length < cfg.min_chunk_size * 2 := by omega
  have m3 : c3.content.length < cfg.min_chunk_size * 2 := by omega
  refine ⟨?_, rfl, rfl, ?_, rfl, rfl⟩
  · show (if cfg.merge_small_functions then
        mergeSmallChunks cfg
          (List.foldl _ [] [c1, c2, c3])
      else List.foldl _ [] [c1, c2, c3]) = _
    rw [if_pos hm]
    have hproc : List.foldl
        (fun acc chunk =>
          if chunk.content.length < cfg.min_chunk_size ∧
              chunk.element_type ≠ some "class" ∧
              chunk.element_type ≠ some "function" then acc
          else if cfg.max_chunk_size < chunk.content.length then
            acc ++ [trimChunk cfg chunk]
          else acc ++ [chunk])
        [] [c1, c2, c3] = [c1, c2, c3] := by
      simp only [List.foldl]
      rw [if_neg k1, if_neg t1, if_neg k2, if_neg t2, if_neg k3, if_neg t3]
      rfl
    rw [hproc]
    unfold mergeSmallChunks
    unfold mergeGo
    rw [if_pos m1]
    unfold mergeGo
    rw [if_pos m2]
    unfold mergeGo
    rw [if_pos m3]
    rfl
  · show String.intercalate "\n\n" [c1.content, c2.content, c3.content] = _
    simp [String.intercalate, String.intercalate.go]

/-- C3 counterexample: three consecutive sub-minimum import chunks are all
dropped by the minimum-size step of post-processing — no merged chunk is
produced in their place. -/
theorem C3_counterexample :
    postProcessChunks {}
      [{ content := "import os", file_path := "a.py", start_line := 1,
         end_line := 1, element_type := some "import" },
       { content := "import sys", file_path := "a.py", start_line := 2,
         end_line := 2, element_type := some "import" },
       { content := "import re", file_path := "a.py", start_line := 3,
         end_line := 3, element_type := some "import" }] = [] := rfl

/-- C3 witness: three concrete small function chunks merge into exactly one
chunk spanning lines 1-6 with the recorded merge metadata. -/
theorem C3_witness :
    postProcessChunks {}
      [{ content := "def a(): pass", file_path := "a.py", start_line := 1,
         end_line := 2, element_name := some "a",
         element_type := some "function" },
       { content := "def b(): pass", file_path := "a.py", start_line := 3,
         end_line := 4, element_name := some "b",
         element_type := some "function" },
       { content := "def c(): pass", file_path := "a.py", start_line := 5,
         end_line := 6, element_name := some "c",
         element_type := some "function" }] =
      [createMergedChunk
        [{ content := "def a(): pass", file_path := "a.py", start_line := 1,
           end_line := 2, element_name := some "a",
           element_type := some "function" },
         { content := "def b(): pass", file_path := "a.py", start_line := 3,
           end_line := 4, element_name := some "b",
           element_type := some "function" },
         { content := "def c(): pass", file_path := "a.py", start_line := 5,
           end_line := 6, element_name := some "c",
           element_type := some "function" }]] ∧
    (createMergedChunk
        [{ content := "def a(): pass", file_path := "a.py", start_line := 1,
           end_line := 2, element_name := some "a",
           element_type := some "function" },
         { content := "def b(): pass", file_path := "a.py", start_line := 3,
           end_line := 4, element_name := some "b",
           element_type := some "function" },
         { content := "def c(): pass", file_path := "a.py", start_line := 5,
           end_line := 6, element_name := some "c",
           element_type := some "function" }]).start_line = 1 ∧
    (createMergedChunk
        [{ content := "def a(): pass", file_path := "a.py", start_line := 1,
           end_line := 2, element_name := some "a",
           element_type := some "function" },
         { content := "def b(): pass", file_path := "a.py", start_line := 3,
           end_line := 4, element_name := some "b",
           element_type := some "function" },
         { content := "def c(): pass", file_path := "a.py", start_line := 5,
           end_line := 6, element_name := some "c",
           element_type := some "function" }]).end_line = 6 := by
  have h := C3_merge_small_chunks {}
    { content := "def a(): pass", file_path := "a.py", start_line := 1,
      end_line := 2, element_name := some "a",
      element_type := some "function" }
    { content := "def b(): pass", file_path := "a.py", start_line := 3,
      end_line := 4, element_name := some "b",
      element_type := some "function" }
    { content := "def c(): pass", file_path := "a.py", start_line := 5,
      end_line := 6, element_name := some "c",
      element_type := some "function" }
    rfl (by decide) (by decide) (by decide) (by decide)
    (Or.inl rfl) (Or.inl rfl) (Or.inl rfl)
  exact ⟨h.1, by rw [h.2.1]; decide, by rw [h.2.2.1]; decide⟩

theorem foldl_append_mem {α β : Type} (g : β → List α) :
    ∀ (l : List β) (acc : List α) (x : α),
      x ∈ l.foldl (fun acc b => acc ++ g b) acc →
      x ∈ acc ∨ ∃ b ∈ l, x ∈ g b := by
  intro l
  induction l with
  | nil => intro acc x hx; exact Or.inl hx
  | cons b bs ih =>
    intro acc x hx
    rcases ih _ x hx with h1 | h2
    · rcases List.mem_append.mp h1 with h3 | h3
      · exact Or.inl h3
      · exact Or.inr ⟨b, by simp, h3⟩
    · rcases h2 with ⟨b2, hb2, hx2⟩
      exact Or.inr ⟨b2, by simp [hb2], hx2⟩

theorem foldl_append2_mem {α β : Type} (g h : β → List α) :
    ∀ (l : List β) (acc : List α) (x : α),
      x ∈ l.foldl (fun acc b => acc ++ g b ++ h b) acc →
      x ∈ acc ∨ ∃ b ∈ l, x ∈ g b ∨ x ∈ h b := by
  intro l
  induction l with
  | nil => intro acc x hx; exact Or.inl hx
  | cons b bs ih =>
    intro acc x hx
    rcases ih _ x hx with h1 | h2
    · rcases List.mem_append.mp h1 with h3 | h3
      · rcases List.mem_append.mp h3 with h4 | h4
        · exact Or.inl h4
        · exact Or.inr ⟨b, by simp, Or.inl h4⟩
      · exact Or.inr ⟨b, by simp, Or.inr h3⟩
    · rcases h2 with ⟨b2, hb2, hx2⟩
      exact Or.inr ⟨b2, by simp [hb2], hx2⟩

theorem foldl_min_le_init {α : Type} [LinearOrder α] :
    ∀ (l : List α) (a : α), l.foldl min a ≤ a := by
  intro l
  induction l with
  | nil => intro a; exact le_refl a
  | cons x xs ih =>
    intro a
    calc (x :: xs).foldl min a = xs.foldl min (min a x) := rfl
      _ ≤ min a x := ih (min a x)
      _ ≤ a := min_le_left a x

theorem le_foldl_min {α : Type} [LinearOrder α] (b : α) :
    ∀ (l : List α) (a : α), b ≤ a → (∀ x ∈ l, b ≤ x) →
      b ≤ l.foldl min a := by
  intro l
  induction l with
  | nil => intro a ha _; exact ha
  | cons x xs ih =>
    intro a ha hall
    show b ≤ xs.foldl min (min a x)
    exact ih (min a x) (le_min ha (hall x (by simp)))
      (fun y hy => hall y (by simp [hy]))

theorem init_le_foldl_max {α : Type} [LinearOrder α] :
    ∀ (l : List α) (a : α), a ≤ l.foldl max a := by
  intro l
  induction l with
  | nil => intro a; exact le_refl a
  | cons x xs ih =>
    intro a
    calc a ≤ max a x := le_max_left a x
      _ ≤ xs.foldl max (max a x) := ih (max a x)
      _ = (x :: xs).foldl max a := rfl

theorem foldl_max_le {α : Type} [LinearOrder α] (b : α) :
    ∀ (l : List α) (a : α), a ≤ b → (∀ x ∈ l, x ≤ b) →
      l.foldl max a ≤ b := by
  intro l
  induction l with
  | nil => intro a ha _; exact ha
  | cons x xs ih =>
    intro a ha hall
    show xs.foldl max (max a x) ≤ b
    exact ih (max a x) (max_le ha (hall x (by simp)))
      (fun y hy => hall y (by simp [hy]))

theorem pySlice_length_le {α : Type} (xs : List α) (a b : Int)
    (ha : 0 ≤ a) (hab : a ≤ b) :
    ((pySlice xs a b).length : Int) ≤ b - a := by
  unfold pySlice pySliceIdx
  rw [if_neg (by omega : ¬ b < 0), if_neg (by omega : ¬ a < 0)]
  rw [List.length_drop, List.length_take]
  omega

theorem importLinesOf_length_le (lines : List String) :
    ∀ (imports : List CodeElement) (acc : List String),
      (∀ e ∈ imports, 1 ≤ e.start_line ∧ e.start_line ≤ e.end_line) →
      ((imports.foldl
          (fun acc imp =>
            acc ++ pySlice lines (imp.start_line - 1) imp.end_line)
          acc).length : Int) ≤
        (acc.length : Int) +
          (imports.map (fun e => e.end_line - e.start_line + 1)).sum := by
  intro imports
  induction imports with
  | nil => simp
  | cons imp rest ih =>
    intro acc hall
    have hb := hall imp (by simp)
    have h2 := pySlice_length_le lines (imp.start_line - 1) imp.end_line
      (by omega) (by omega)
    have h1 := ih (acc ++ pySlice lines (imp.start_line - 1) imp.end_line)
      (fun e he => hall e (by simp [he]))
    simp only [List.foldl, List.map, List.sum_cons] at h1 ⊢
    rw [List.length_append] at h1
    push_cast at h1 ⊢
    linarith

theorem pySliceFrom_neg_ne_nil {α : Type} (xs : List α) (k : Nat)
    (hk : 1 ≤ k) (hxs : xs ≠ []) : pySliceFrom xs (-(k : Int)) ≠ [] := by
  unfold pySliceFrom pySliceIdx
  have hn : xs.length ≠ 0 := fun hc => hxs (List.length_eq_zero.mp hc)
  intro h
  have hlen := congrArg List.length h
  rw [List.length_drop] at hlen
  simp only [List.length_nil] at hlen
  split at hlen
  · omega
  · omega

theorem swStep_curr_ne_nil (cfg : ChunkingConfig) (path : String)
    (st : SWState) (i : Nat) (l : String) :
    (swStep cfg path st i l).curr ≠ [] := by
  unfold swStep
  dsimp only
  split
  · exact pySliceFrom_neg_ne_nil _ _ (le_max_left 1 _) (by simp)
  · simp

theorem swGo_inv (cfg : ChunkingConfig) (path : String) :
    ∀ (ls : List String) (i : Nat) (st : SWState),
      1 ≤ i →
      st.startLine ≤ max 1 ((i : Int) - 1) →
      (st.curr ≠ [] →
        st.startLine ≤ (i : Int) - 1 ∧ (1 : Int) ≤ (i : Int) - 1) →
      (∀ c ∈ st.out, c.start_line ≤ c.end_line ∧
        c.end_line ≤ (i : Int) - 1) →
      ((swGo cfg path ls i st).startLine ≤
         max 1 ((i : Int) + ls.length - 1) ∧
       ((swGo cfg path ls i st).curr ≠ [] →
         (swGo cfg path ls i st).startLine ≤ (i : Int) + ls.length - 1 ∧
         (1 : Int) ≤ (i : Int) + ls.length - 1) ∧
       (∀ c ∈ (swGo cfg path ls i st).out,
         c.start_line ≤ c.end_line ∧
         c.end_line ≤ (i : Int) + ls.length - 1)) := by
  intro ls
  induction ls with
  | nil =>
    intro i st hi hstart hcurr hout
    simp only [swGo, List.length_nil, Nat.cast_zero, add_zero]
    exact ⟨hstart, hcurr, hout⟩
  | cons l rest ih =>
    intro i st hi hstart hcurr hout
    have hmax_le : max 1 ((i : Int) - 1) ≤ (i : Int) := by
      have h1 : (1 : Int) ≤ (i : Int) := by exact_mod_cast hi
      omega
    have hov : 1 ≤ max 1 (cfg.overlap_size / 50) := le_max_left 1 _
    have hstep_start :
        (swStep cfg path st i l).startLine ≤ (i : Int) := by
      unfold swStep
      dsimp only
      split
      · dsimp only
        have : (1 : Int) ≤ (max 1 (cfg.overlap_size / 50) : Nat) := by
          exact_mod_cast hov
        omega
      · exact le_trans hstart hmax_le
    have hstep_out :
        ∀ c ∈ (swStep cfg path st i l).out,
          c.start_line ≤ c.end_line ∧ c.end_line ≤ (i : Int) := by
      unfold swStep
      dsimp only
      split
      · intro c hc
        rcases List.mem_append.mp hc with h1 | h2
        · have := hout c h1
          exact ⟨this.1, by omega⟩
        · rcases List.mem_singleton.mp h2 with rfl
          exact ⟨le_trans hstart hmax_le, le_refl _⟩
      · intro c hc
        have := hout c hc
        exact ⟨this.1, by omega⟩
    have hone : (1 : Int) ≤ (i : Int) := by exact_mod_cast hi
    have hmain := ih (i + 1) (swStep cfg path st i l) (by omega)
      (by
        push_cast
        calc (swStep cfg path st i l).startLine ≤ (i : Int) := hstep_start
          _ ≤ max 1 ((i : Int) + 1 - 1) := by omega)
      (by
        intro _
        push_cast
        exact ⟨by omega, by omega⟩)
      (by
        intro c hc
        have := hstep_out c hc
        push_cast
        exact ⟨this.1, by omega⟩)
    simp only [swGo]
    refine ⟨?_, ?_, ?_⟩
    · have := hmain.1
      push_cast [List.length_cons] at this ⊢
      omega
    · intro hne
      have := hmain.2.1 hne
      push_cast [List.length_cons] at this ⊢
      exact ⟨by omega, by omega⟩
    · intro c hc
      have := hmain.2.2 c hc
      push_cast [List.length_cons] at this ⊢
      exact ⟨this.1, by omega⟩

theorem slidingWindow_bounds (cfg : ChunkingConfig) (content : String)
    (path : String) :
    ∀ c ∈ slidingWindowChunking cfg content path,
      c.start_line ≤ c.end_line ∧ c.end_line ≤ totalLines content := by
  intro c hc
  unfold slidingWindowChunking at hc
  dsimp only at hc
  have h := swGo_inv cfg path (pySplitLines content) 1 ⟨[], 0, 1, []⟩
    le_rfl (by norm_num) (by intro hcon; exact absurd rfl hcon)
    (by intro c hc; exact absurd hc (List.not_mem_nil c))
  rcases List.mem_append.mp hc with h1 | h2
  · have hb := h.2.2 c h1
    refine ⟨hb.1, ?_⟩
    unfold totalLines
    have := hb.2
    omega
  · split at h2
    · rcases List.mem_singleton.mp h2 with rfl
      rename_i hcond
      have hne : (swGo cfg path (pySplitLines content) 1
          ⟨[], 0, 1, []⟩).curr ≠ [] := by
        simpa using hcond
      have hb := h.2.1 hne
      unfold mkSWChunk totalLines
      dsimp only
      exact ⟨by omega, by omega⟩
    · exact absurd h2 (List.not_mem_nil c)

theorem chunkByFunctions_bounds (cfg : ChunkingConfig)
    (res : AnalysisResult) (content : String) (path : String)
    (helems : ∀ e ∈ res.code_elements, elemInBounds (totalLines content) e) :
    ∀ c ∈ chunkByFunctions cfg res content path,
      chunkInBounds (totalLines content) c := by
  intro c hc
  unfold chunkByFunctions at hc
  dsimp only at hc
  rcases foldl_append2_mem _ _ _ _ c hc with h1 | ⟨f, hf, hx⟩
  · exact absurd h1 (List.not_mem_nil c)
  · have hfe : f ∈ res.code_elements := List.mem_of_mem_filter hf
    have hb := helems f hfe
    unfold elemInBounds at hb
    rcases hx with hmain | hdoc
    · rcases List.mem_singleton.mp hmain with rfl
      unfold mkFunctionChunk chunkInBounds
      dsimp only
      exact ⟨hb.1, hb.2.1, hb.2.2.1⟩
    · unfold mkFunctionDocChunks at hdoc
      split at hdoc
      · rename_i doc heq
        split at hdoc
        · rcases List.mem_singleton.mp hdoc with rfl
          unfold chunkInBounds
          dsimp only
          have hdn : docNewlines f = (countNewlines doc : Int) := by
            unfold docNewlines
            rw [heq]
          refine ⟨hb.1, by omega, ?_⟩
          have := hb.2.2.2
          rw [hdn] at this
          omega
        · exact absurd hdoc (List.not_mem_nil c)
      · exact absurd hdoc (List.not_mem_nil c)

theorem chunkByClasses_bounds (cfg : ChunkingConfig)
    (res : AnalysisResult) (content : String) (path : String)
    (helems : ∀ e ∈ res.code_elements, elemInBounds (totalLines content) e) :
    ∀ c ∈ chunkByClasses cfg res content path,
      chunkInBounds (totalLines content) c := by
  intro c hc
  unfold chunkByClasses at hc
  dsimp only at hc
  rcases foldl_append2_mem _ _ _ _ c hc with h1 | ⟨cls, hcls, hx⟩
  · exact absurd h1 (List.not_mem_nil c)
  · have hce : cls ∈ res.code_elements := List.mem_of_mem_filter hcls
    have hb := helems cls hce
    unfold elemInBounds at hb
    rcases hx with hmain | hdoc
    · rcases List.mem_singleton.mp hmain with rfl
      unfold mkClassChunk chunkInBounds
      dsimp only
      exact ⟨hb.1, hb.2.1, hb.2.2.1⟩
    · unfold mkClassDocChunks at hdoc
      split at hdoc
      · rename_i doc heq
        split at hdoc
        · rcases List.mem_singleton.mp hdoc with rfl
          unfold chunkInBounds
          dsimp only
          have hdn : docNewlines cls = (countNewlines doc : Int) := by
            unfold docNewlines
            rw [heq]
          refine ⟨hb.1, by omega, ?_⟩
          have := hb.2.2.2
          rw [hdn] at this
          omega
        · exact absurd hdoc (List.not_mem_nil c)
      · exact absurd hdoc (List.not_mem_nil c)

theorem collectRelated_subset (e : CodeElement) :
    ∀ (others : List CodeElement) (used : List String),
      ∀ x ∈ (collectRelated e others used).1, x ∈ others := by
  intro others
  induction others with
  | nil =>
    intro used x hx
    exact absurd hx (List.not_mem_nil x)
  | cons o rest ih =>
    intro used x hx
    unfold collectRelated at hx
    split at hx
    · exact List.mem_cons_of_mem o (ih used x hx)
    · split at hx
      · rcases List.mem_cons.mp hx with rfl | hx2
        · exact List.mem_cons_self x rest
        · exact List.mem_cons_of_mem o (ih (used ++ [o.name]) x hx2)
      · exact List.mem_cons_of_mem o (ih used x hx)

theorem groupGo_subset (all : List CodeElement) :
    ∀ (rest : List CodeElement) (used : List String)
      (g : List CodeElement), g ∈ groupGo all rest used →
      ∀ x ∈ g, x ∈ rest ∨ x ∈ all := by
  intro rest
  induction rest with
  | nil =>
    intro used g hg
    exact absurd hg (List.not_mem_nil g)
  | cons e rs ih =>
    intro used g hg x hx
    unfold groupGo at hg
    split at hg
    · rcases ih used g hg x hx with h1 | h2
      · exact Or.inl (List.mem_cons_of_mem e h1)
      · exact Or.inr h2
    · rcases List.mem_append.mp hg with h1 | h2
      · split at h1
        · rcases List.mem_singleton.mp h1 with rfl
          rcases List.mem_cons.mp hx with rfl | hx2
          · exact Or.inl (List.mem_cons_self x rs)
          · exact Or.inr (collectRelated_subset e all _ x hx2)
        · exact absurd h1 (List.not_mem_nil g)
      · rcases ih _ g h2 x hx with h3 | h4
        · exact Or.inl (List.mem_cons_of_mem e h3)
        · exact Or.inr h4

theorem chunkSemanticBlocks_bounds (res : AnalysisResult) (content : String)
    (path : String)
    (helems : ∀ e ∈ res.code_elements, elemInBounds (totalLines content) e) :
    ∀ c ∈ chunkSemanticBlocks res content path,
      chunkInBounds (totalLines content) c := by
  intro c hc
  unfold chunkSemanticBlocks at hc
  dsimp only at hc
  rcases foldl_append_mem _ _ _ c hc with h1 | ⟨group, hgrp, hx⟩
  · exact absurd h1 (List.not_mem_nil c)
  · have hsub : ∀ x ∈ group, x ∈ res.code_elements := by
      intro x hxg
      rcases groupGo_subset res.code_elements res.code_elements [] group
        hgrp x hxg with h | h <;> exact h
    unfold mkSemanticChunks at hx
    split at hx
    · exact absurd hx (List.not_mem_nil c)
    · rename_i g0 gs
      rcases List.mem_singleton.mp hx with rfl
      unfold chunkInBounds
      dsimp only
      have hg0 := helems g0 (hsub g0 (List.mem_cons_self g0 gs))
      unfold elemInBounds at hg0
      have hminmax :
          gs.foldl (fun m e => min m e.start_line) g0.start_line =
            (gs.map (fun e => e.start_line)).foldl min g0.start_line := by
        rw [List.foldl_map]
      have hmaxmax :
          gs.foldl (fun m e => max m e.end_line) g0.end_line =
            (gs.map (fun e => e.end_line)).foldl max g0.end_line := by
        rw [List.foldl_map]
      rw [hminmax, hmaxmax]
      refine ⟨?_, ?_, ?_⟩
      · apply le_foldl_min 1 _ _ hg0.1
        intro x hxm
        rcases List.mem_map.mp hxm with ⟨e, he, rfl⟩
        exact (helems e (hsub e (List.mem_cons_of_mem g0 he))).1
      · calc (gs.map (fun e => e.start_line)).foldl min g0.start_line
            ≤ g0.start_line := foldl_min_le_init _ _
          _ ≤ g0.end_line := hg0.2.1
          _ ≤ (gs.map (fun e => e.end_line)).foldl max g0.end_line :=
            init_le_foldl_max _ _
      · apply foldl_max_le _ _ _ hg0.2.2.1
        intro x hxm
        rcases List.mem_map.mp hxm with ⟨e, he, rfl⟩
        exact (helems e (hsub e (List.mem_cons_of_mem g0 he))).2.2.1

theorem hybridChunking_bounds (cfg : ChunkingConfig) (res : AnalysisResult)
    (content : String) (path : String)
    (helems : ∀ e ∈ res.code_elements, elemInBounds (totalLines content) e)
    (himp : importSpanSum res ≤ totalLines content) :
    ∀ c ∈ hybridChunking cfg res content path,
      chunkInBounds (totalLines content) c := by
  intro c hc
  unfold hybridChunking at hc
  dsimp only at hc
  rcases List.mem_append.mp hc with h12 | h3
  · rcases List.mem_append.mp h12 with h1 | h2
    · split at h1
      · exact chunkByFunctions_bounds cfg res content path helems c h1
      · exact absurd h1 (List.not_mem_nil c)
    · split at h2
      · rcases List.mem_map.mp h2 with ⟨cls, hcls, rfl⟩
        have hb := helems cls (List.mem_of_mem_filter hcls)
        unfold elemInBounds at hb
        unfold mkComplexClassChunk chunkInBounds
        dsimp only
        exact ⟨hb.1, hb.2.1, hb.2.2.1⟩
      · exact absurd h2 (List.not_mem_nil c)
  · split at h3
    · unfold mkImportChunks at h3
      dsimp only at h3
      split at h3
      · split at h3
        · rename_i himports hlines
          rcases List.mem_singleton.mp h3 with rfl
          unfold chunkInBounds
          dsimp only
          refine ⟨le_refl 1, ?_, ?_⟩
          · have hne : importLinesOf
                (res.code_elements.filter
                  (fun e => e.element_type = "import")) (pySplitLines content)
                ≠ [] := by
              simpa using hlines
            have : 0 < (importLinesOf
                (res.code_elements.filter
                  (fun e => e.element_type = "import"))
                (pySplitLines content)).length :=
              List.length_pos.mpr hne
            omega
          · have hbound := importLinesOf_length_le (pySplitLines content)
              (res.code_elements.filter (fun e => e.element_type = "import"))
              []
              (by
                intro e he
                have hb := helems e (List.mem_of_mem_filter he)
                unfold elemInBounds at hb
                exact ⟨hb.1, hb.2.1⟩)
            unfold importLinesOf at hbound ⊢
            unfold importSpanSum at himp
            simp only [List.length_nil, Nat.cast_zero, zero_add] at hbound
            omega
        · exact absurd h3 (List.not_mem_nil c)
      · exact absurd h3 (List.not_mem_nil c)
    · exact absurd h3 (List.not_mem_nil c)

theorem trimChunk_start_le_end (cfg : ChunkingConfig) (c : DocumentChunk)
    (h50 : 50 ≤ cfg.max_chunk_size) (hc : c.start_line ≤ c.end_line) :
    (trimChunk cfg c).start_line ≤ (trimChunk cfg c).end_line := by
  unfold trimChunk
  dsimp only
  split
  · dsimp only
    rename_i hlt
    have htarget : 1 ≤ cfg.max_chunk_size / 50 :=
      (Nat.one_le_div_iff (by norm_num)).mpr h50
    have hlen : (List.take (cfg.max_chunk_size / 50)
        (pySplitLines c.content)).length = cfg.max_chunk_size / 50 := by
      rw [List.length_take]
      omega
    rw [hlen]
    omega
  · exact hc

theorem createMergedChunk_bounds (total : Int) (c : DocumentChunk)
    (cs : List DocumentChunk)
    (hall : ∀ k ∈ c :: cs, chunkInBounds total k) :
    chunkInBounds total (createMergedChunk (c :: cs)) := by
  have hc0 := hall c (List.mem_cons_self c cs)
  unfold chunkInBounds at hc0
  unfold createMergedChunk chunkInBounds
  dsimp only
  have hminmax :
      cs.foldl (fun m k => min m k.start_line) c.start_line =
        (cs.map (fun k => k.start_line)).foldl min c.start_line := by
    rw [List.foldl_map]
  have hmaxmax :
      cs.foldl (fun m k => max m k.end_line) c.end_line =
        (cs.map (fun k => k.end_line)).foldl max c.end_line := by
    rw [List.foldl_map]
  rw [hminmax, hmaxmax]
  refine ⟨?_, ?_, ?_⟩
  · apply le_foldl_min 1 _ _ hc0.1
    intro x hxm
    rcases List.mem_map.mp hxm with ⟨k, hk, rfl⟩
    have := hall k (List.mem_cons_of_mem c hk)
    unfold chunkInBounds at this
    exact this.1
  · calc (cs.map (fun k => k.start_line)).foldl min c.start_line
        ≤ c.start_line := foldl_min_le_init _ _
      _ ≤ c.end_line := hc0.2.1
      _ ≤ (cs.map (fun k => k.end_line)).foldl max c.end_line :=
        init_le_foldl_max _ _
  · apply foldl_max_le _ _ _ hc0.2.2
    intro x hxm
    rcases List.mem_map.mp hxm with ⟨k, hk, rfl⟩
    have := hall k (List.mem_cons_of_mem c hk)
    unfold chunkInBounds at this
    exact this.2.2

/-- C6: the claim as stated fails — sliding-window chunking can emit a
chunk whose `start_line` is below 1, because the overlap restart sets
`start = i - overlap_lines + 1`.  Amended: every sliding-window chunk still
satisfies `start_line ≤ end_line` with `end_line` within the file's line
count; for parser elements lying within the file, all function-based,
class-based, semantic-block and hybrid chunks (docstring and import
aggregate included, the latter under the import-span bound) satisfy
`1 ≤ start_line ≤ end_line ≤ total`; trimming preserves
`start_line ≤ end_line` whenever `max_chunk_size ≥ 50`; and a merged chunk
of in-bounds chunks stays in bounds. -/
theorem C6_line_bounds (cfg : ChunkingConfig) (res : AnalysisResult)
    (content : String) (path : String) :
    (∀ c ∈ slidingWindowChunking cfg content path,
      c.start_line ≤ c.end_line ∧ c.end_line ≤ totalLines content) ∧
    ((∀ e ∈ res.code_elements, elemInBounds (totalLines content) e) →
      (∀ c ∈ chunkByFunctions cfg res content path,
        chunkInBounds (totalLines content) c) ∧
      (∀ c ∈ chunkByClasses cfg res content path,
        chunkInBounds (totalLines content) c) ∧
      (∀ c ∈ chunkSemanticBlocks res content path,
        chunkInBounds (totalLines content) c) ∧
      (importSpanSum res ≤ totalLines content →
        ∀ c ∈ hybridChunking cfg res content path,
          chunkInBounds (totalLines content) c)) ∧
    (50 ≤ cfg.max_chunk_size → ∀ c : DocumentChunk,
      c.start_line ≤ c.end_line →
      (trimChunk cfg c).start_line ≤ (trimChunk cfg c).end_line) ∧
    (∀ (c : DocumentChunk) (cs : List DocumentChunk),
      (∀ k ∈ c :: cs, chunkInBounds (totalLines content) k) →
      chunkInBounds (totalLines content) (createMergedChunk (c :: cs))) := by
  refine ⟨slidingWindow_bounds cfg content path, ?_, ?_, ?_⟩
  · intro helems
    exact ⟨chunkByFunctions_bounds cfg res content path helems,
      chunkByClasses_bounds cfg res content path helems,
      chunkSemanticBlocks_bounds res content path helems,
      fun himp => hybridChunking_bounds cfg res content path helems himp⟩
  · intro h50 c hc
    exact trimChunk_start_le_end cfg c h50 hc
  · intro c cs hall
    exact createMergedChunk_bounds (totalLines content) c cs hall

/-- C6 counterexample: with `max_chunk_size = 2` and the default overlap, a
first line reaching the budget makes the overlap restart compute
`start_line = 1 - 2 + 1 = 0` — the second sliding-window chunk has
`start_line = 0 < 1`. -/
theorem C6_counterexample :
    (slidingWindowChunking { max_chunk_size := 2, overlap_size := 100 }
        "ab\nc" "f.py").map (fun c => c.start_line) = [1, 0, 1] ∧
    ((slidingWindowChunking { max_chunk_size := 2, overlap_size := 100 }
        "ab\nc" "f.py").all (fun c => 1 ≤ c.start_line)) = false :=
  ⟨rfl, rfl⟩

/-- C6 witness: the single sliding-window chunk of a one-line file is in
bounds; a concrete in-bounds function element yields an in-bounds function
chunk; trimming and merging concrete in-bounds chunks keep
`start_line ≤ end_line`. -/
theorem C6_witness :
    ((mkSWChunk "f.py" 1 1 ["x"]).start_line ≤
        (mkSWChunk "f.py" 1 1 ["x"]).end_line ∧
      (mkSWChunk "f.py" 1 1 ["x"]).end_line ≤ totalLines "x") ∧
    chunkInBounds (totalLines "def f():\n    pass")
      (mkFunctionChunk {}
        { code_elements := [{ name := "f", element_type := "function",
                              start_line := 1, end_line := 2 }] }
        (pySplitLines "def f():\n    pass") "a.py"
        { name := "f", element_type := "function",
          start_line := 1, end_line := 2 }) ∧
    ((trimChunk {}
        { content := "z", file_path := "a.py", start_line := 1,
          end_line := 1 }).start_line ≤
      (trimChunk {}
        { content := "z", file_path := "a.py", start_line := 1,
          end_line := 1 }).end_line) ∧
    chunkInBounds (totalLines "x\ny")
      (createMergedChunk
        [{ content := "a", file_path := "a.py", start_line := 1,
           end_line := 1 },
         { content := "b", file_path := "a.py", start_line := 2,
           end_line := 2 }]) := by
  refine ⟨?_, ?_, ?_, ?_⟩
  · exact (C6_line_bounds {} {} "x" "f.py").1 (mkSWChunk "f.py" 1 1 ["x"])
      (List.mem_singleton_self _)
  · exact ((C6_line_bounds {}
      { code_elements := [{ name := "f", element_type := "function",
                            start_line := 1, end_line := 2 }] }
      "def f():\n    pass" "a.py").2.1 (by decide)).1
      (mkFunctionChunk {}
        { code_elements := [{ name := "f", element_type := "function",
                              start_line := 1, end_line := 2 }] }
        (pySplitLines "def f():\n    pass") "a.py"
        { name := "f", element_type := "function",
          start_line := 1, end_line := 2 })
      (List.mem_singleton_self _)
  · exact (C6_line_bounds {} {} "x" "f.py").2.2.1 (by decide)
      { content := "z", file_path := "a.py", start_line := 1, end_line := 1 }
      (by decide)
  · exact (C6_line_bounds {} {} "x\ny" "f.py").2.2.2
      { content := "a", file_path := "a.py", start_line := 1, end_line := 1 }
      [{ content := "b", file_path := "a.py", start_line := 2,
         end_line := 2 }]
      (by decide)

end RAG
